import Mathlib

/-!
# MiniInterpreteGO: a shallow embedding of `src/scr/main.go`

The interpreter is a stack machine over dynamically tagged values.  This file
embeds the value model, the coercion helpers, the execution loop `VM.Run` and
the loader `parseFile` of `main.go`, and proves properties of them.

Modelling conventions.

* Go `string` values are Lean `String`s (sequences of Unicode code points, i.e.
  valid UTF-8 text); Go compares strings bytewise, which on valid UTF-8 is the
  code-point lexicographic order used here.
* Go `int` is the 64-bit two's-complement integer of a 64-bit target: values
  are `Int`s and every arithmetic result is reduced by `wrapInt`.
* Go `float64` values are modelled by `Float64`: NaN, the two infinities, and
  finite values `(-1)^neg * m * 2^e`.
* A Go slice `[]Value` is a reference to a backing array.  Copies of a list
  `Value` share that array, and `STORE_SUBSCR` writes into it, so list values
  are addresses into a heap of arrays held by the machine state.
* `make([]Value, n)` panics for a negative `n` and for an `n` whose array
  would exceed the `maxAlloc` of the runtime (2^48 bytes on a 64-bit target, a
  `Value` taking 72 bytes); an allocation that the runtime accepts is taken to
  succeed (memory is not otherwise bounded).
* Standard output is the list of lines printed so far.
* `strconv.ParseFloat` and the `%g` verb of `fmt` are library code outside the
  repository; they are parameters of the model (`Lib`).
* `parseFile` is modelled from the lines the scanner yields on; opening and
  reading the file are not.
-/

namespace MiniInterprete

/-! ## Machine integers -/

/-- Reduction of a mathematical integer to the range of Go's 64-bit `int`
(two's-complement wrap-around). -/
def wrapInt (x : Int) : Int := (x + 2 ^ 63) % 2 ^ 64 - 2 ^ 63

/-- The values of Go's 64-bit `int`. -/
def inIntRange (x : Int) : Prop := -(2 ^ 63) ≤ x ∧ x < 2 ^ 63

instance (x : Int) : Decidable (inIntRange x) := by unfold inIntRange; exact inferInstance

/-! ## float64 -/

/-- The values of a `float64`: NaN, plus or minus infinity, and the finite
values `(-1)^neg * m * 2^e` (both zeros are finite values with `m = 0`). -/
inductive Float64 where
  | nan
  | inf (neg : Bool)
  | fin (neg : Bool) (m : Nat) (e : Int)
deriving DecidableEq, Repr

namespace Float64

/-- The finite values that a binary64 can hold: a significand below `2^53` and
an exponent between `-1074` and `971`. NaN and the infinities always qualify. -/
def isDouble : Float64 → Prop
  | fin _ m e => m < 2 ^ 53 ∧ -1074 ≤ e ∧ e ≤ 971
  | _ => True

instance (f : Float64) : Decidable (isDouble f) := by
  cases f <;> unfold isDouble <;> exact inferInstance

/-- The signed significand of a finite value scaled to exponent `k ≤ e`:
the integer `(-1)^neg * m * 2^(e-k)`. -/
def scaled (neg : Bool) (m : Nat) (e k : Int) : Int :=
  (if neg then -1 else 1) * (m : Int) * 2 ^ (e - k).toNat

/-- The comparison `a < b` of two float64 values (false when either is NaN). -/
def lt : Float64 → Float64 → Bool
  | nan, _ => false
  | _, nan => false
  | inf n1, inf n2 => n1 && !n2
  | inf n1, fin _ _ _ => n1
  | fin _ _ _, inf n2 => !n2
  | fin n1 m1 e1, fin n2 m2 e2 =>
    decide (scaled n1 m1 e1 (min e1 e2) < scaled n2 m2 e2 (min e1 e2))

/-- The comparison `a == b` of two float64 values (false when either is NaN;
the two zeros are equal). -/
def eq : Float64 → Float64 → Bool
  | nan, _ => false
  | _, nan => false
  | inf n1, inf n2 => n1 == n2
  | inf _, fin _ _ _ => false
  | fin _ _ _, inf _ => false
  | fin n1 m1 e1, fin n2 m2 e2 =>
    decide (scaled n1 m1 e1 (min e1 e2) = scaled n2 m2 e2 (min e1 e2))

/-- The comparison `a <= b` of two float64 values. -/
def le (a b : Float64) : Bool := lt a b || eq a b

/-- The number of halvings that bring `n` below `2^53` (at most `fuel` of
them): with `fuel = n` it is the bit length of `n` minus 53, or zero. -/
def excessBits : Nat → Nat → Nat
  | 0, _ => 0
  | fuel + 1, n => if n < 2 ^ 53 then 0 else excessBits fuel (n / 2) + 1

/-- The conversion `float64(i)` of an integer: `i` rounded to the nearest value
with a 53-bit significand, ties to the even significand.  (When the rounding
carries, the significand written here is `2^53`; the value is the float64
`2^53 * 2^k`.) -/
def ofInt (i : Int) : Float64 :=
  let n := i.natAbs
  let k := excessBits n n
  let q := n / 2 ^ k
  let r := n % 2 ^ k
  let up := decide (2 * r > 2 ^ k) || (decide (2 * r = 2 ^ k) && decide (q % 2 = 1))
  fin (decide (i < 0)) (if up then q + 1 else q) k

/-- The conversion `int(f)` of a float64: the value truncated toward zero.
When the truncated value does not fit in an `int` (also for NaN and the
infinities) Go leaves the result to the implementation; amd64 yields the
most negative `int`, which is what is modelled. -/
def toInt : Float64 → Int
  | fin neg m e =>
    let mag : Nat := if 0 ≤ e then m * 2 ^ e.toNat else m / 2 ^ (-e).toNat
    let v : Int := if neg then -(mag : Int) else (mag : Int)
    if -(2 ^ 63) ≤ v ∧ v < 2 ^ 63 then v else -(2 ^ 63)
  | _ => -(2 ^ 63)

/-- The test `f != 0` (true for NaN and the infinities). -/
def neZero : Float64 → Bool
  | fin _ m _ => decide (m ≠ 0)
  | _ => true

/-- The rational number a finite float64 denotes; NaN and the infinities
denote none. -/
def toRat : Float64 → Option ℚ
  | fin neg m e => some ((if neg then -1 else 1) * (m : ℚ) * (2 : ℚ) ^ e)
  | _ => none

end Float64

/-! ## The Go library functions used by the interpreter -/

/-- The library functions that the model takes as parameters: the rendering of
a float64 by `fmt.Sprintf("%g", f)` and `strconv.ParseFloat(s, 64)` (`none`
when it returns an error). -/
structure Lib where
  fmtG : Float64 → String
  ParseFloat : String → Option Float64

namespace unicode

/-- Go's `unicode.IsSpace`. -/
def IsSpace (c : Char) : Bool :=
  let n := c.toNat
  decide (n = 0x09 ∨ n = 0x0A ∨ n = 0x0B ∨ n = 0x0C ∨ n = 0x0D ∨ n = 0x20 ∨ n = 0x85 ∨
    n = 0xA0 ∨ n = 0x1680 ∨ (0x2000 ≤ n ∧ n ≤ 0x200A) ∨ n = 0x2028 ∨ n = 0x2029 ∨
    n = 0x202F ∨ n = 0x205F ∨ n = 0x3000)

/-- Go's `unicode.ToUpper`, exact on every rune whose upper case is an ASCII
letter: the letters `a`-`z`, dotless i (U+0131) and long s (U+017F).  Every
other rune is left as it is; its real upper case is not ASCII either, so
comparisons of an upper-cased string with an ASCII keyword are unaffected. -/
def ToUpper (c : Char) : Char :=
  let n := c.toNat
  if n = 0x131 then 'I'
  else if n = 0x17F then 'S'
  else if 0x61 ≤ n ∧ n ≤ 0x7A then Char.ofNat (n - 32)
  else c

/-- Go's `unicode.ToLower`, exact on every rune whose lower case is an ASCII
letter: the letters `A`-`Z`, dotted capital I (U+0130) and the Kelvin sign
(U+212A).  Every other rune is left as it is. -/
def ToLower (c : Char) : Char :=
  let n := c.toNat
  if n = 0x130 then 'i'
  else if n = 0x212A then 'k'
  else if 0x41 ≤ n ∧ n ≤ 0x5A then Char.ofNat (n + 32)
  else c

/-- Representative of a rune's simple case-folding orbit, exact on the orbits
that contain an ASCII letter (`k`, `K`, Kelvin sign; `s`, `S`, long s; and the
pairs of the other letters). -/
def foldKey (c : Char) : Char :=
  let n := c.toNat
  if n = 0x212A then 'k'
  else if n = 0x17F then 's'
  else if 0x41 ≤ n ∧ n ≤ 0x5A then Char.ofNat (n + 32)
  else c

end unicode

namespace strings

/-- Go's `strings.TrimSpace`: leading and trailing white space removed. -/
def TrimSpace (s : String) : String :=
  String.mk ((s.data.dropWhile unicode.IsSpace).reverse.dropWhile unicode.IsSpace).reverse

/-- Go's `strings.ToUpper` (rune-wise `unicode.ToUpper`). -/
def ToUpper (s : String) : String := String.mk (s.data.map unicode.ToUpper)

/-- Go's `strings.ToLower` (rune-wise `unicode.ToLower`). -/
def ToLower (s : String) : String := String.mk (s.data.map unicode.ToLower)

/-- Go's `strings.EqualFold`, exact whenever one of the strings is ASCII. -/
def EqualFold (s t : String) : Bool :=
  s.data.map unicode.foldKey == t.data.map unicode.foldKey

/-- Go's `strings.HasPrefix`. -/
def HasPrefix (s p : String) : Bool := p.data.isPrefixOf s.data

/-- Go's `strings.HasSuffix`. -/
def HasSuffix (s p : String) : Bool := p.data.isSuffixOf s.data

/-- Go's `strings.Contains`. -/
def Contains (s sub : String) : Bool := s.data.tails.any (fun t => sub.data.isPrefixOf t)

/-- Go's `strings.Trim`: every leading and trailing rune of `cutset` removed. -/
def Trim (s cutset : String) : String :=
  String.mk
    ((s.data.dropWhile (fun c => cutset.data.contains c)).reverse.dropWhile
      (fun c => cutset.data.contains c)).reverse

/-- Go's `strings.Join`. -/
def Join (parts : List String) (sep : String) : String := sep.intercalate parts

end strings

namespace strconv

/-- The value of a string of ASCII decimal digits, `none` if some character is
not a digit. -/
def digitsValue : List Char → Nat → Option Nat
  | [], acc => some acc
  | c :: cs, acc =>
    if 0x30 ≤ c.toNat ∧ c.toNat ≤ 0x39 then digitsValue cs (acc * 10 + (c.toNat - 0x30))
    else none

/-- Go's `strconv.Atoi` on a 64-bit target: an optional sign followed by at
least one decimal digit, the value of which must fit in an `int`; `none` when
Atoi returns an error. -/
def Atoi (s : String) : Option Int :=
  let body : List Char :=
    match s.data with
    | '+' :: cs => cs
    | '-' :: cs => cs
    | cs => cs
  let neg : Bool :=
    match s.data with
    | '-' :: _ => true
    | _ => false
  if body.isEmpty then none
  else
    match digitsValue body 0 with
    | none => none
    | some n =>
      let v : Int := if neg then -(n : Int) else (n : Int)
      if -(2 ^ 63) ≤ v ∧ v < 2 ^ 63 then some v else none

/-- The rendering of an integer by `fmt.Sprintf("%d", i)`. -/
def FormatInt (i : Int) : String :=
  if i < 0 then "-" ++ Nat.repr i.natAbs else Nat.repr i.natAbs

end strconv

/-! ## Values -/

/-- The tag of a value (`Kind` in `main.go`). -/
inductive Kind where
  | KindNone | KindInt | KindFloat | KindString | KindChar | KindBool | KindList | KindFunc
deriving DecidableEq, Repr

/-- A value of the interpreter: the Go struct `Value` read through its tag, as
built by `VInt`, `VFloat`, `VStr`, `VChar`, `VBool`, `VList`, `VFunc` and
`VNone`.  A list holds the address of its backing array in the heap. -/
inductive Value where
  | VNone
  | VInt (i : Int)
  | VFloat (f : Float64)
  | VStr (s : String)
  | VChar (s : String)
  | VBool (b : Bool)
  | VList (addr : Nat)
  | VFunc (name : String)
deriving DecidableEq, Repr

open Value Kind

/-- The field `Kind` of a value. -/
def Value.Kind : Value → Kind
  | VNone => KindNone
  | VInt _ => KindInt
  | VFloat _ => KindFloat
  | VStr _ => KindString
  | VChar _ => KindChar
  | VBool _ => KindBool
  | VList _ => KindList
  | VFunc _ => KindFunc

/-- The field `S` of a value: the text of a String, Char or FunctionRef, and
the empty string (Go's zero value) otherwise. -/
def Value.S : Value → String
  | VStr s => s
  | VChar s => s
  | VFunc s => s
  | _ => ""

/-- The backing arrays of the list values, by address. -/
abbrev Heap := List (List Value)

/-- The slice `v.L` of a list value: the array at its address. -/
def Heap.slice (heap : Heap) (addr : Nat) : List Value := heap.getD addr []

/-- The texts `f v` of the values of a list, in order: `none` as soon as one of
them does not return. -/
def renderAll (f : Value → Option String) : List Value → Option (List String)
  | [] => some []
  | v :: vs =>
    match f v with
    | none => none
    | some s =>
      match renderAll f vs with
      | none => none
      | some ss => some (s :: ss)

/-- The function `Value.String` with a bound on the nesting depth of lists:
`none` when the depth exceeds `fuel`. -/
def renderFuel (lib : Lib) (heap : Heap) : Nat → Value → Option String
  | _, VInt i => some (strconv.FormatInt i)
  | _, VFloat f => some (lib.fmtG f)
  | _, VStr s => some s
  | _, VChar s => some s
  | _, VBool b => some (if b then "True" else "False")
  | _, VFunc name => some ("<func " ++ name ++ ">")
  | _, VNone => some "None"
  | 0, VList _ => none
  | fuel + 1, VList addr =>
    match renderAll (renderFuel lib heap fuel) (heap.slice addr) with
    | none => none
    | some parts => some ("[" ++ ", ".intercalate parts ++ "]")

/-- A value that refers to an array of the heap, if it is a list. -/
def Value.validIn (heap : Heap) : Value → Prop
  | VList addr => addr < heap.length
  | _ => True

instance (heap : Heap) (v : Value) : Decidable (v.validIn heap) := by
  cases v <;> unfold Value.validIn <;> exact inferInstance

/-- A heap whose arrays hold only lists of the heap itself: every list value
was built by `BUILD_LIST` before it was stored. -/
def Heap.closed (heap : Heap) : Prop := ∀ arr ∈ heap, ∀ v ∈ arr, v.validIn heap

instance (heap : Heap) : Decidable heap.closed := by
  unfold Heap.closed; exact inferInstance

/-- The function `Value.String`: the text of a value.  A list nested deeper
than the number of arrays in the heap contains itself, and the Go recursion
never returns on it: that is the result `none`. -/
def Value.String (lib : Lib) (heap : Heap) (v : Value) : Option String :=
  renderFuel lib heap heap.length v

/-! ## Instructions, environment and machine state -/

/-- An instruction: logical index, opcode text, raw argument. -/
structure Instr where
  Index : Int
  Op : String
  Arg : String
deriving DecidableEq, Repr

/-- The variable environment: the Go map `Vars`. -/
structure Env where
  Vars : String → Option Value

/-- The assignment `env.Vars[name] = v`. -/
def Env.set (env : Env) (name : String) (v : Value) : Env :=
  { Vars := fun k => if k = name then some v else env.Vars k }

/-- The state of the machine: the fields of the Go struct `VM`, the heap of
list arrays, and the lines printed so far. -/
structure VM where
  Code : List Instr
  Index2PC : Int → Option Nat
  Stack : List Value
  Env : Env
  PC : Nat
  heap : Heap
  out : List String

/-- The loop of `NewVM` that fills the index-to-position map, from physical
position `pc` on. -/
def indexLoop : List Instr → Nat → (Int → Option Nat) → (Int → Option Nat)
  | [], _, m => m
  | ins :: rest, pc, m => indexLoop rest (pc + 1) (fun k => if k = ins.Index then some pc else m k)

/-- The constructor `NewVM`. -/
def NewVM (code : List Instr) : VM :=
  { Code := code
    Index2PC := indexLoop code 0 (fun _ => none)
    Stack := []
    Env := { Vars := fun _ => none }
    PC := 0
    heap := []
    out := [] }

/-- The errors that `Run` and its helpers return, one per message of
`main.go`. -/
inductive Err where
  | stackUnderflow
  | expectedNumber (k : Kind)
  | notConvertibleToBool
  | unsupportedComparison (ka : Kind) (op : String) (kb : Kind)
  | loadConstNoArg
  | loadConstBadFloat (arg : String)
  | loadConstBadInt (arg : String)
  | undefinedVariable (name : String)
  | callFunctionBadArg (arg : String)
  | expectedFunctionRef (k : Kind)
  | unsupportedFunction (name : String)
  | divisionByZero
  | moduloByZero
  | storeSubscrExpectsList
  | binarySubscrExpectsList
  | invalidIndex
  | buildListBadArg (arg : String)
  | jumpAbsoluteBadArg
  | jumpIfBadArg
  | unknownJumpTarget (target : Int)
  | unsupportedOpcode (op : String)
deriving DecidableEq, Repr

instance {ε α : Type} [DecidableEq ε] [DecidableEq α] : DecidableEq (Except ε α)
  | .ok a, .ok b =>
    if h : a = b then isTrue (by rw [h]) else isFalse (fun h2 => h (by cases h2; rfl))
  | .error a, .error b =>
    if h : a = b then isTrue (by rw [h]) else isFalse (fun h2 => h (by cases h2; rfl))
  | .ok _, .error _ => isFalse (fun h2 => by cases h2)
  | .error _, .ok _ => isFalse (fun h2 => by cases h2)

/-- The method `push`: the value is appended to the stack (the top of the
stack is the last element). -/
def VM.push (vm : VM) (v : Value) : VM := { vm with Stack := vm.Stack ++ [v] }

/-- The method `pop`: the result, and the machine after the call. -/
def VM.pop (vm : VM) : Except Err Value × VM :=
  match vm.Stack.getLast? with
  | none => (.error .stackUnderflow, vm)
  | some v => (.ok v, { vm with Stack := vm.Stack.dropLast })

/-- The method `pop2`: the top value `a` and the one below it `b`. -/
def VM.pop2 (vm : VM) : Except Err (Value × Value) × VM :=
  match vm.pop with
  | (.error e, vm1) => (.error e, vm1)
  | (.ok a, vm1) =>
    match vm1.pop with
    | (.error e, vm2) => (.error e, vm2)
    | (.ok b, vm2) => (.ok (a, b), vm2)

/-- The value a Go caller binds with `x, _ := f()`: the result, or the zero
value that accompanies an error. -/
def orZero {α : Type} (r : Except Err α) (zero : α) : α :=
  match r with
  | .ok x => x
  | .error _ => zero

/-- The helper `asInt`. -/
def asInt (v : Value) : Except Err Int :=
  match v with
  | VInt i => .ok i
  | VFloat f => .ok f.toInt
  | VBool b => .ok (if b then 1 else 0)
  | _ => .error (.expectedNumber v.Kind)

/-- The helper `asBool`. -/
def asBool (v : Value) : Except Err Bool :=
  match v with
  | VBool b => .ok b
  | VInt i => .ok (decide (i ≠ 0))
  | VFloat f => .ok f.neZero
  | _ => .error .notConvertibleToBool

/-- The local function `isNum` of `cmp`. -/
def isNum (v : Value) : Bool :=
  v.Kind = KindInt || v.Kind = KindFloat || v.Kind = KindBool

/-- The float64 that `cmp` compares for a numeric-like operand. -/
def cmpFloat (v : Value) : Float64 :=
  match v with
  | VInt i => Float64.ofInt i
  | VFloat f => f
  | VBool b => if b then Float64.fin false 1 0 else Float64.fin false 0 0
  | _ => Float64.fin false 0 0

/-- The helper `cmp`. -/
def cmp (op : String) (a b : Value) : Except Err Bool :=
  if isNum a && isNum b then
    let af := cmpFloat a
    let bf := cmpFloat b
    if op = "<" then .ok (Float64.lt af bf)
    else if op = "<=" then .ok (Float64.le af bf)
    else if op = ">" then .ok (Float64.lt bf af)
    else if op = ">=" then .ok (Float64.le bf af)
    else if op = "==" then .ok (Float64.eq af bf)
    else if op = "!=" then .ok (!Float64.eq af bf)
    else .error (.unsupportedComparison a.Kind op b.Kind)
  else if a.Kind = KindString ∧ b.Kind = KindString then
    if op = "==" then .ok (decide (a.S = b.S))
    else if op = "!=" then .ok (decide (a.S ≠ b.S))
    else if op = "<" then .ok (decide (a.S.data < b.S.data))
    else if op = "<=" then .ok (decide (¬ b.S.data < a.S.data))
    else if op = ">" then .ok (decide (b.S.data < a.S.data))
    else if op = ">=" then .ok (decide (¬ a.S.data < b.S.data))
    else .error (.unsupportedComparison a.Kind op b.Kind)
  else .error (.unsupportedComparison a.Kind op b.Kind)

/-! ## The execution loop -/

/-- What one turn of the loop of `Run` does to the machine. -/
inductive Outcome where
  /-- the loop goes on with this machine -/
  | next (vm : VM)
  /-- `Run` returns `nil` -/
  | halt (vm : VM)
  /-- `Run` returns the error -/
  | fail (e : Err) (vm : VM)
  /-- the Go runtime aborts the process (a panic of `make`, or the stack
  overflow of an endless recursion) -/
  | crash (vm : VM)

/-- The statement `vm.PC++` that ends a turn of the loop. -/
def VM.advance (vm : VM) : Outcome := .next { vm with PC := vm.PC + 1 }

/-- The size in bytes of a `Value` on a 64-bit target: the fields `Kind`, `I`
and `F` take 8 bytes each, the string header `S` 16, the Boolean `B` 8 with its
padding, and the slice header `L` 24. -/
def sizeofValue : Nat := 72

/-- The constant `maxAlloc` of the Go runtime on a 64-bit target with 48
address bits: no single allocation is larger. -/
def maxAlloc : Nat := 2 ^ 48

/-- Whether `make([]Value, n)` panics (`makeslice: len out of range`): the
runtime refuses a negative length and a length whose array would take more
than `maxAlloc` bytes. -/
def makePanics (n : Int) : Bool :=
  decide (n < 0) || decide ((maxAlloc : Int) < n * (sizeofValue : Int))

/-- The loops of `BUILD_LIST` and `CALL_FUNCTION` that pop `n` values into
`tmp[n-1]`, ..., `tmp[0]`: `acc` holds the values already placed. -/
def popArgs : Nat → VM → List Value → Except Err (List Value) × VM
  | 0, vm, acc => (.ok acc, vm)
  | n + 1, vm, acc =>
    match vm.pop with
    | (.error e, vm1) => (.error e, vm1)
    | (.ok v, vm1) => popArgs n vm1 (v :: acc)

/-- The case `LOAD_CONST` of `Run`. -/
def execLoadConst (lib : Lib) (vm : VM) (ins : Instr) : Outcome :=
  let arg := strings.TrimSpace ins.Arg
  if arg = "" then .fail .loadConstNoArg vm
  else if (strings.HasPrefix arg "\"" && strings.HasSuffix arg "\"") ||
      (strings.HasPrefix arg "“" && strings.HasSuffix arg "”") then
    (vm.push (VStr (strings.Trim arg "\"“”"))).advance
  else if strings.HasPrefix arg "'" && strings.HasSuffix arg "'" && decide (arg.length ≥ 3) then
    (vm.push (VChar (strings.Trim arg "'"))).advance
  else if strings.EqualFold arg "True" || strings.EqualFold arg "False" then
    (vm.push (VBool (strings.EqualFold arg "True"))).advance
  else if strings.Contains arg "." then
    match lib.ParseFloat arg with
    | some f => (vm.push (VFloat f)).advance
    | none => .fail (.loadConstBadFloat arg) vm
  else
    match strconv.Atoi arg with
    | some i => (vm.push (VInt i)).advance
    | none => .fail (.loadConstBadInt arg) vm

/-- The case `CALL_FUNCTION` of `Run`. -/
def execCallFunction (lib : Lib) (vm : VM) (ins : Instr) : Outcome :=
  match strconv.Atoi (strings.TrimSpace ins.Arg) with
  | none => .fail (.callFunctionBadArg ins.Arg) vm
  | some n =>
    if makePanics n then .crash vm
    else
      match popArgs n.toNat vm [] with
      | (.error e, vm1) => .fail e vm1
      | (.ok args, vm1) =>
        match vm1.pop with
        | (.error e, vm2) => .fail e vm2
        | (.ok fref, vm2) =>
          if fref.Kind ≠ KindFunc then .fail (.expectedFunctionRef fref.Kind) vm2
          else if strings.ToLower fref.S = "print" then
            match renderAll (Value.String lib vm2.heap) args with
            | none => .crash vm2
            | some parts => VM.advance { vm2 with out := vm2.out ++ [strings.Join parts " "] }
          else .fail (.unsupportedFunction fref.S) vm2

/-- The case of the six arithmetic opcodes of `Run`; `op` is the upper-cased,
trimmed opcode text. -/
def execArith (vm : VM) (op : String) : Outcome :=
  match vm.pop2 with
  | (.error e, vm1) => .fail e vm1
  | (.ok (oper1, oper2), vm1) =>
    let a := oper2
    let b := oper1
    if op = "BINARY_ADD" then
      if (a.Kind = KindString ∨ a.Kind = KindChar) ∧ (b.Kind = KindString ∨ b.Kind = KindChar) then
        (vm1.push (VStr (a.S ++ b.S))).advance
      else
        let ai := orZero (asInt a) 0
        let bi := orZero (asInt b) 0
        (vm1.push (VInt (wrapInt (ai + bi)))).advance
    else if op = "BINARY_SUBSTRACT" ∨ op = "BINARY_SUBTRACT" then
      let ai := orZero (asInt a) 0
      let bi := orZero (asInt b) 0
      (vm1.push (VInt (wrapInt (ai - bi)))).advance
    else if op = "BINARY_MULTIPLY" then
      let ai := orZero (asInt a) 0
      let bi := orZero (asInt b) 0
      (vm1.push (VInt (wrapInt (ai * bi)))).advance
    else if op = "BINARY_DIVIDE" then
      let ai := orZero (asInt a) 0
      let bi := orZero (asInt b) 0
      if bi = 0 then .fail .divisionByZero vm1
      else (vm1.push (VInt (wrapInt (ai.tdiv bi)))).advance
    else if op = "BINARY_MODULO" then
      let ai := orZero (asInt a) 0
      let bi := orZero (asInt b) 0
      if bi = 0 then .fail .moduloByZero vm1
      else (vm1.push (VInt (wrapInt (ai.tmod bi)))).advance
    else vm1.advance

/-- The case `STORE_SUBSCR` of `Run`. -/
def execStoreSubscr (vm : VM) : Outcome :=
  match vm.pop2 with
  | (.error e, vm1) => .fail e vm1
  | (.ok (val, arr), vm1) =>
    match vm1.pop with
    | (.error e, vm2) => .fail e vm2
    | (.ok idx, vm2) =>
      match arr with
      | VList addr =>
        match asInt idx with
        | .error _ => .fail .invalidIndex vm2
        | .ok i =>
          if i < 0 ∨ i ≥ (vm2.heap.slice addr).length then .fail .invalidIndex vm2
          else
            VM.advance
              { vm2 with heap := vm2.heap.set addr ((vm2.heap.slice addr).set i.toNat val) }
      | _ => .fail .storeSubscrExpectsList vm2

/-- The case `BINARY_SUBSCR` of `Run`. -/
def execBinarySubscr (vm : VM) : Outcome :=
  match vm.pop2 with
  | (.error e, vm1) => .fail e vm1
  | (.ok (idx, arr), vm1) =>
    match arr with
    | VList addr =>
      match asInt idx with
      | .error _ => .fail .invalidIndex vm1
      | .ok i =>
        if i < 0 ∨ i ≥ (vm1.heap.slice addr).length then .fail .invalidIndex vm1
        else (vm1.push ((vm1.heap.slice addr).getD i.toNat VNone)).advance
    | _ => .fail .binarySubscrExpectsList vm1

/-- The case `BUILD_LIST` of `Run`: the new array takes the next free address
of the heap. -/
def execBuildList (vm : VM) (ins : Instr) : Outcome :=
  match strconv.Atoi (strings.TrimSpace ins.Arg) with
  | none => .fail (.buildListBadArg ins.Arg) vm
  | some n =>
    if makePanics n then .crash vm
    else
      match popArgs n.toNat vm [] with
      | (.error e, vm1) => .fail e vm1
      | (.ok tmp, vm1) =>
        (VM.push { vm1 with heap := vm1.heap ++ [tmp] } (VList vm1.heap.length)).advance

/-- The case `JUMP_ABSOLUTE` of `Run`. -/
def execJumpAbsolute (vm : VM) (ins : Instr) : Outcome :=
  match strconv.Atoi (strings.TrimSpace ins.Arg) with
  | none => .fail .jumpAbsoluteBadArg vm
  | some target =>
    match vm.Index2PC target with
    | none => .fail (.unknownJumpTarget target) vm
    | some pc => .next { vm with PC := pc }

/-- The case `JUMP_IF_TRUE`, `JUMP_IF_FALSE` of `Run`. -/
def execJumpIf (vm : VM) (ins : Instr) : Outcome :=
  match strconv.Atoi (strings.TrimSpace ins.Arg) with
  | none => .fail .jumpIfBadArg vm
  | some target =>
    match vm.pop with
    | (.error e, vm1) => .fail e vm1
    | (.ok val, vm1) =>
      match asBool val with
      | .error e => .fail e vm1
      | .ok b =>
        let cond := (decide (strings.ToUpper ins.Op = "JUMP_IF_TRUE") && b) ||
          (decide (strings.ToUpper ins.Op = "JUMP_IF_FALSE") && !b)
        if cond then
          match vm1.Index2PC target with
          | none => .fail (.unknownJumpTarget target) vm1
          | some pc => .next { vm1 with PC := pc }
        else vm1.advance

/-- The text on which the switch of `Run` dispatches:
`strings.ToUpper(strings.TrimSpace(ins.Op))`. -/
def Instr.opcode (ins : Instr) : String := strings.ToUpper (strings.TrimSpace ins.Op)

/-- The body of the loop of `Run` for the instruction `ins` fetched at
`vm.PC`: the switch on the opcode, then `vm.PC++`. -/
def exec (lib : Lib) (vm : VM) (ins : Instr) : Outcome :=
  let op := ins.opcode
  if op = "LOAD_CONST" then execLoadConst lib vm ins
  else if op = "LOAD_FAST" then
    let name := strings.TrimSpace ins.Arg
    match vm.Env.Vars name with
    | none => .fail (.undefinedVariable name) vm
    | some v => (vm.push v).advance
  else if op = "STORE_FAST" then
    let name := strings.TrimSpace ins.Arg
    match vm.pop with
    | (.error e, vm1) => .fail e vm1
    | (.ok v, vm1) => VM.advance { vm1 with Env := vm1.Env.set name v }
  else if op = "LOAD_GLOBAL" then
    let name := strings.TrimSpace ins.Arg
    (vm.push (VFunc name)).advance
  else if op = "CALL_FUNCTION" then execCallFunction lib vm ins
  else if op = "COMPARE_OP" then
    let cop := strings.TrimSpace ins.Arg
    match vm.pop2 with
    | (.error e, vm1) => .fail e vm1
    | (.ok (oper1, oper2), vm1) =>
      match cmp cop oper2 oper1 with
      | .error e => .fail e vm1
      | .ok res => (vm1.push (VBool res)).advance
  else if op = "BINARY_ADD" ∨ op = "BINARY_SUBSTRACT" ∨ op = "BINARY_SUBTRACT" ∨
      op = "BINARY_MULTIPLY" ∨ op = "BINARY_DIVIDE" ∨ op = "BINARY_MODULO" then
    execArith vm op
  else if op = "BINARY_AND" ∨ op = "BINARY_OR" then
    match vm.pop2 with
    | (.error e, vm1) => .fail e vm1
    | (.ok (oper1, oper2), vm1) =>
      let a := oper2
      let b := oper1
      let ab := orZero (asBool a) false
      let bb := orZero (asBool b) false
      if strings.ToUpper ins.Op = "BINARY_AND" then (vm1.push (VBool (ab && bb))).advance
      else (vm1.push (VBool (ab || bb))).advance
  else if op = "STORE_SUBSCR" then execStoreSubscr vm
  else if op = "BINARY_SUBSCR" then execBinarySubscr vm
  else if op = "BUILD_LIST" then execBuildList vm ins
  else if op = "JUMP_ABSOLUTE" then execJumpAbsolute vm ins
  else if op = "JUMP_IF_TRUE" ∨ op = "JUMP_IF_FALSE" then execJumpIf vm ins
  else if op = "END" then .halt vm
  else .fail (.unsupportedOpcode ins.Op) vm

/-- One turn of the loop of `Run`: the test `vm.PC < len(vm.Code)`, the fetch,
and the body. -/
def step (lib : Lib) (vm : VM) : Outcome :=
  match vm.Code[vm.PC]? with
  | none => .halt vm
  | some ins => exec lib vm ins

/-- How a call of `Run` ends. -/
inductive RunResult where
  /-- `Run` returned `nil` -/
  | ok (vm : VM)
  /-- `Run` returned an error -/
  | error (e : Err) (vm : VM)
  /-- the process was aborted by the Go runtime -/
  | crashed (vm : VM)

/-- The method `Run`, bounded to `fuel` turns of its loop: `none` when the
loop is still running after `fuel` turns. -/
def VM.Run (lib : Lib) : Nat → VM → Option RunResult
  | 0, _ => none
  | fuel + 1, vm =>
    match step lib vm with
    | .next vm1 => VM.Run lib fuel vm1
    | .halt vm1 => some (.ok vm1)
    | .fail e vm1 => some (.error e vm1)
    | .crash vm1 => some (.crashed vm1)

/-- The number that a numeric-like value (Integer, Float, Boolean) denotes:
`True` is 1 and `False` is 0; NaN, the infinities and the values of the other
kinds denote none. -/
def Value.number : Value → Option ℚ
  | VInt i => some (i : ℚ)
  | VFloat f => f.toRat
  | VBool b => some (if b then 1 else 0)
  | _ => none

/-- The Boolean that a value coerces to under the rule of the specification:
a Boolean is itself, an Integer is true when it is not 0, a Float is true when
it is not zero (NaN and the infinities are not zero); the values of the other
kinds coerce to none. -/
def Value.truth : Value → Option Bool
  | VBool b => some b
  | VInt i => some (decide (i ≠ 0))
  | VFloat f => some (decide (f.toRat ≠ some 0))
  | _ => none

/-- The six comparison operators. -/
def isCompareOp (op : String) : Prop :=
  op = "<" ∨ op = "<=" ∨ op = ">" ∨ op = ">=" ∨ op = "==" ∨ op = "!="

/-- A machine whose index-to-position map is the one `NewVM` builds for its
program. -/
def VM.loaded (vm : VM) : Prop := vm.Index2PC = indexLoop vm.Code 0 (fun _ => none)

/-- The number of operands an instruction takes from the stack, as the
specification counts them: one for
`STORE_FAST`, two for `COMPARE_OP`, the arithmetic and logical opcodes and
`BINARY_SUBSCR`, three for `STORE_SUBSCR`, one for a conditional jump with an
integer target, `n` for `BUILD_LIST n` and `n + 1` for `CALL_FUNCTION n` with
`n ≥ 0`; `none` for every other instruction. -/
def operandsConsumed (ins : Instr) : Option Nat :=
  let op := ins.opcode
  let n := strconv.Atoi (strings.TrimSpace ins.Arg)
  if op = "STORE_FAST" then some 1
  else if op = "COMPARE_OP" ∨ op = "BINARY_ADD" ∨ op = "BINARY_SUBSTRACT" ∨
      op = "BINARY_SUBTRACT" ∨ op = "BINARY_MULTIPLY" ∨ op = "BINARY_DIVIDE" ∨
      op = "BINARY_MODULO" ∨ op = "BINARY_AND" ∨ op = "BINARY_OR" ∨
      op = "BINARY_SUBSCR" then some 2
  else if op = "STORE_SUBSCR" then some 3
  else if op = "JUMP_IF_TRUE" ∨ op = "JUMP_IF_FALSE" then
    match n with
    | some _ => some 1
    | none => none
  else if op = "BUILD_LIST" then
    match n with
    | some n => if 0 ≤ n then some n.toNat else none
    | none => none
  else if op = "CALL_FUNCTION" then
    match n with
    | some n => if 0 ≤ n then some (n.toNat + 1) else none
    | none => none
  else none

/-! ## The loader -/

/-- The map `opcodesWithArg`: the lookup `opcodesWithArg[up]`. -/
def opcodesWithArg (up : String) : Bool :=
  up = "LOAD_CONST" || up = "LOAD_FAST" || up = "STORE_FAST" || up = "LOAD_GLOBAL" ||
  up = "CALL_FUNCTION" || up = "COMPARE_OP" || up = "JUMP_ABSOLUTE" || up = "JUMP_IF_TRUE" ||
  up = "JUMP_IF_FALSE" || up = "BUILD_LIST"

/-- The function `isOpcode`. -/
def isOpcode (s : String) : Bool :=
  let up := strings.ToUpper (strings.TrimSpace s)
  if up = "" then false
  else if up = "END" || up = "BINARY_ADD" || up = "BINARY_SUBSTRACT" || up = "BINARY_SUBTRACT" ||
      up = "BINARY_MULTIPLY" || up = "BINARY_DIVIDE" || up = "BINARY_AND" || up = "BINARY_OR" ||
      up = "BINARY_MODULO" || up = "BINARY_SUBSCR" || up = "STORE_SUBSCR" ||
      up = "LOAD_CONST" || up = "LOAD_FAST" || up = "STORE_FAST" || up = "LOAD_GLOBAL" ||
      up = "CALL_FUNCTION" || up = "COMPARE_OP" || up = "JUMP_ABSOLUTE" || up = "JUMP_IF_TRUE" ||
      up = "JUMP_IF_FALSE" || up = "BUILD_LIST" then true
  else false

/-- The errors of `parseFile` on the lines of a file, one per message. -/
inductive ParseErr where
  | expectedIndex (line : String)
  | missingOpcode (idx : Int)
  | missingArgument (op : String) (idx : Int)
  | expectedArgumentFoundOpcode (op : String) (idx : Int) (line : String)
deriving DecidableEq, Repr

/-- The second loop of `parseFile`: `lines` are the lines from position `i` on,
`code` the instructions appended so far. -/
def parseLoop : List String → List Instr → Except ParseErr (List Instr)
  | [], code => .ok code
  | line :: rest, code =>
    match strconv.Atoi line with
    | none => .error (.expectedIndex line)
    | some idx =>
      match rest with
      | [] => .error (.missingOpcode idx)
      | opLine :: rest2 =>
        let op := strings.TrimSpace opLine
        if opcodesWithArg (strings.ToUpper op) then
          match rest2 with
          | [] => .error (.missingArgument op idx)
          | argLine :: rest3 =>
            if isOpcode argLine then .error (.expectedArgumentFoundOpcode op idx argLine)
            else parseLoop rest3 (code ++ [⟨idx, op, strings.TrimSpace argLine⟩])
        else parseLoop rest2 (code ++ [⟨idx, op, ""⟩])

/-- Go's `strings.ReplaceAll(s, "\t", " ")`. -/
def replaceTabs (s : String) : String :=
  String.mk (s.data.map (fun c => if c = '\t' then ' ' else c))

/-- The first loop of `parseFile` over the lines the scanner yields: each is
trimmed, its tabs become spaces, and empty lines are dropped. -/
def normalizeLines : List String → List String
  | [] => []
  | text :: rest =>
    let line := replaceTabs (strings.TrimSpace text)
    if line = "" then normalizeLines rest else line :: normalizeLines rest

/-- The function `parseFile` on the lines of an opened file. -/
def parseFile (texts : List String) : Except ParseErr (List Instr) :=
  parseLoop (normalizeLines texts) []

/-- The argument-taking opcodes, as the specification lists them. -/
def argumentTakingSet : List String :=
  ["LOAD_CONST", "LOAD_FAST", "STORE_FAST", "LOAD_GLOBAL", "CALL_FUNCTION", "COMPARE_OP",
   "JUMP_ABSOLUTE", "JUMP_IF_TRUE", "JUMP_IF_FALSE", "BUILD_LIST"]

/-- The recognized opcode keywords, as the specification lists them. -/
def recognizedSet : List String :=
  ["END", "BINARY_ADD", "BINARY_SUBSTRACT", "BINARY_SUBTRACT", "BINARY_MULTIPLY",
   "BINARY_DIVIDE", "BINARY_AND", "BINARY_OR", "BINARY_MODULO", "BINARY_SUBSCR",
   "STORE_SUBSCR", "LOAD_CONST", "LOAD_FAST", "STORE_FAST", "LOAD_GLOBAL", "CALL_FUNCTION",
   "COMPARE_OP", "JUMP_ABSOLUTE", "JUMP_IF_TRUE", "JUMP_IF_FALSE", "BUILD_LIST"]

/-! ## Runs and frames -/

/-- The machine an outcome carries. -/
def Outcome.vm : Outcome → VM
  | .next vm => vm
  | .halt vm => vm
  | .fail _ vm => vm
  | .crash vm => vm

/-- The outcome leaves the program and its index-to-position map as they are
in `vm`, it is not a normal halt, and when the loop goes on the program counter
is `vm.PC + 1`. -/
def Outcome.advances (vm : VM) (o : Outcome) : Prop :=
  o.vm.Code = vm.Code ∧ o.vm.Index2PC = vm.Index2PC ∧
  (∀ vm1, o = .next vm1 → vm1.PC = vm.PC + 1) ∧ (∀ vm1, o ≠ .halt vm1)

/-- The machine with which a call of `Run` ends. -/
def RunResult.vm : RunResult → VM
  | .ok vm => vm
  | .error _ vm => vm
  | .crashed vm => vm

/-- The machine after `n` turns of the loop of `Run` that all let the loop go
on; `none` when one of these turns ends the run. -/
def runSteps (lib : Lib) : Nat → VM → Option VM
  | 0, vm => some vm
  | n + 1, vm =>
    match step lib vm with
    | .next vm1 => runSteps lib n vm1
    | _ => none

/-- The three jump opcodes. -/
def Instr.isJump (ins : Instr) : Prop :=
  ins.opcode = "JUMP_ABSOLUTE" ∨ ins.opcode = "JUMP_IF_TRUE" ∨ ins.opcode = "JUMP_IF_FALSE"

instance (ins : Instr) : Decidable ins.isJump := by
  unfold Instr.isJump; exact inferInstance

/-- A library instance for the concrete examples below, none of which parses
or prints a float64: its `ParseFloat` accepts nothing and its `fmtG` prints
nothing. -/
def exampleLib : Lib := { fmtG := fun _ => "", ParseFloat := fun _ => none }

/-! ## Stack lemmas -/

theorem pop_concat (vm : VM) (rest : List Value) (v : Value) (h : vm.Stack = rest ++ [v]) :
    vm.pop = (.ok v, { vm with Stack := rest }) := by
  simp [VM.pop, h]

theorem pop_nil (vm : VM) (h : vm.Stack = []) : vm.pop = (.error .stackUnderflow, vm) := by
  simp [VM.pop, h]

theorem pop2_concat (vm : VM) (rest : List Value) (b a : Value)
    (h : vm.Stack = rest ++ [b, a]) :
    vm.pop2 = (.ok (a, b), { vm with Stack := rest }) := by
  have h1 : vm.Stack = (rest ++ [b]) ++ [a] := by simp [h]
  simp [VM.pop2, pop_concat vm (rest ++ [b]) a h1,
    pop_concat { vm with Stack := rest ++ [b] } rest b rfl]

theorem step_fetch (lib : Lib) (vm : VM) (ins : Instr) (h : vm.Code[vm.PC]? = some ins) :
    step lib vm = exec lib vm ins := by
  simp [step, h]

/-! ## Allocation and coercion lemmas -/

theorem makePanics_of_fits (n : Nat) (h : n * sizeofValue ≤ maxAlloc) :
    makePanics (n : Int) = false := by
  have h1 : ¬ ((n : Int) < 0) := by omega
  have h2 : ¬ ((maxAlloc : Int) < (n : Int) * (sizeofValue : Int)) := by
    have h3 : ((n * sizeofValue : Nat) : Int) ≤ (maxAlloc : Int) := by exact_mod_cast h
    push_cast at h3
    omega
  simp [makePanics, h1, h2]

theorem makePanics_toNat (n : Int) (hn : 0 ≤ n) (h : n.toNat * sizeofValue ≤ maxAlloc) :
    makePanics n = false := by
  have h1 := makePanics_of_fits n.toNat h
  rwa [Int.toNat_of_nonneg hn] at h1

/-- The test `f != 0` of the code is true exactly for the floats that do not
denote the number 0. -/
theorem neZero_toRat (f : Float64) : f.neZero = decide (f.toRat ≠ some 0) := by
  cases f with
  | nan => simp [Float64.neZero, Float64.toRat]
  | inf neg => simp [Float64.neZero, Float64.toRat]
  | fin neg m e =>
    have h2 : (2 : ℚ) ^ e ≠ 0 := zpow_ne_zero e (by norm_num)
    cases neg <;> simp [Float64.neZero, Float64.toRat, h2]

/-- The helper `asBool` follows the rule `Value.truth`, and returns its error
for the values that the rule does not cover. -/
theorem asBool_truth (v : Value) :
    asBool v = match v.truth with
      | some c => .ok c
      | none => .error .notConvertibleToBool := by
  cases v <;> simp [asBool, Value.truth, neZero_toRat]

theorem orZero_asBool (v : Value) : orZero (asBool v) false = v.truth.getD false := by
  rw [asBool_truth]
  cases v.truth <;> rfl

/-! ## C1: STORE_FAST followed by LOAD_FAST -/

/-- C1. In a machine whose stack is `rest ++ [v]` and whose next two
instructions are `STORE_FAST x` and `LOAD_FAST x`, both turns of the loop
succeed; afterwards the stack is again `rest ++ [v]`, `x` is bound to `v`,
every other variable is bound as before, and the program counter has advanced
by two (heap, output and program untouched). -/
theorem C1_store_then_load (lib : Lib) (vm : VM) (i1 i2 : Instr) (x : String) (v : Value)
    (rest : List Value)
    (hf1 : vm.Code[vm.PC]? = some i1) (hf2 : vm.Code[vm.PC + 1]? = some i2)
    (hop1 : i1.opcode = "STORE_FAST") (hop2 : i2.opcode = "LOAD_FAST")
    (hx1 : strings.TrimSpace i1.Arg = x) (hx2 : strings.TrimSpace i2.Arg = x)
    (hs : vm.Stack = rest ++ [v]) :
    ∃ vm1 vm2, step lib vm = .next vm1 ∧ step lib vm1 = .next vm2 ∧
      vm2.Stack = vm.Stack ∧ vm2.Env.Vars x = some v ∧
      (∀ y, y ≠ x → vm2.Env.Vars y = vm.Env.Vars y) ∧
      vm2.PC = vm.PC + 2 ∧ vm2.heap = vm.heap ∧ vm2.out = vm.out ∧
      vm2.Code = vm.Code ∧ vm2.Index2PC = vm.Index2PC := by
  refine ⟨{ vm with Stack := rest, Env := vm.Env.set x v, PC := vm.PC + 1 },
    { vm with Stack := rest ++ [v], Env := vm.Env.set x v, PC := vm.PC + 2 }, ?_, ?_, ?_⟩
  · rw [step_fetch lib vm i1 hf1]
    simp [exec, hop1, hx1, pop_concat vm rest v hs, VM.advance]
  · rw [step_fetch lib _ i2 hf2]
    simp [exec, hop2, hx2, Env.set, VM.advance, VM.push]
  · simp [hs, Env.set]
    intro y hy
    simp [hy]

/-- C1 at a concrete machine: the program `STORE_FAST x; LOAD_FAST x` started
with the stack `[7]`. -/
theorem C1_store_then_load_witness :
    ∃ vm1 vm2,
      step exampleLib { NewVM [⟨0, "STORE_FAST", "x"⟩, ⟨1, "LOAD_FAST", "x"⟩] with
        Stack := [VInt 7] } = .next vm1 ∧
      step exampleLib vm1 = .next vm2 ∧ vm2.Stack = [VInt 7] ∧
      vm2.Env.Vars "x" = some (VInt 7) ∧
      (∀ y, y ≠ "x" → vm2.Env.Vars y = none) ∧ vm2.PC = 2 := by
  obtain ⟨vm1, vm2, h1, h2, h3, h4, h5, h6, _⟩ :=
    C1_store_then_load exampleLib
      { NewVM [⟨0, "STORE_FAST", "x"⟩, ⟨1, "LOAD_FAST", "x"⟩] with Stack := [VInt 7] }
      ⟨0, "STORE_FAST", "x"⟩ ⟨1, "LOAD_FAST", "x"⟩ "x" (VInt 7) [] rfl rfl (by decide) (by decide)
      (by decide) (by decide) rfl
  exact ⟨vm1, vm2, h1, h2, h3, h4, h5, h6⟩

/-! ## C2: BUILD_LIST -/

theorem popArgs_concat (n : Nat) : ∀ (vm : VM) (rest vs acc : List Value),
    vm.Stack = rest ++ vs → vs.length = n →
    popArgs n vm acc = (.ok (vs ++ acc), { vm with Stack := rest }) := by
  induction n with
  | zero =>
    intro vm rest vs acc hs hl
    have hv : vs = [] := List.length_eq_zero.mp hl
    subst hv
    cases vm
    simp_all [popArgs]
  | succ n ih =>
    intro vm rest vs acc hs hl
    rcases List.eq_nil_or_concat vs with hv | ⟨front, v, hv⟩
    · subst hv; simp at hl
    · subst hv
      have hs1 : vm.Stack = (rest ++ front) ++ [v] := by simp [hs]
      have hl1 : front.length = n := by simpa using hl
      rw [popArgs, pop_concat vm (rest ++ front) v hs1]
      simp only []
      rw [ih { vm with Stack := rest ++ front } rest front (v :: acc) rfl hl1]
      simp

theorem renderAll_congr (f g : Value → Option String) (l : List Value)
    (h : ∀ v ∈ l, f v = g v) : renderAll f l = renderAll g l := by
  induction l with
  | nil => rfl
  | cons a t ih =>
    simp [renderAll, h a (List.mem_cons_self a t),
      ih (fun x hx => h x (List.mem_cons_of_mem a hx))]

theorem slice_append_left (heap : Heap) (arr : List Value) (addr : Nat)
    (h : addr < heap.length) : Heap.slice (heap ++ [arr]) addr = Heap.slice heap addr := by
  simp [Heap.slice, List.getD_eq_getElem?_getD, List.getElem?_append_left h]

theorem slice_append_new (heap : Heap) (arr : List Value) :
    Heap.slice (heap ++ [arr]) heap.length = arr := by
  simp [Heap.slice, List.getD_eq_getElem?_getD]

theorem slice_valid (heap : Heap) (hc : heap.closed) (addr : Nat) :
    ∀ v ∈ Heap.slice heap addr, v.validIn heap := by
  intro v hv
  by_cases h : addr < heap.length
  · have hm : Heap.slice heap addr ∈ heap := by
      simp [Heap.slice, List.getD_eq_getElem?_getD, List.getElem?_eq_getElem h]
    exact hc _ hm v hv
  · have he : Heap.slice heap addr = [] := by
      simp [Heap.slice, List.getD_eq_getElem?_getD, List.getElem?_eq_none (not_lt.mp h)]
    simp [he] at hv

/-- Allocating a new array does not change the text of the values that
existed before. -/
theorem renderFuel_append (lib : Lib) (heap : Heap) (arr : List Value) (hc : heap.closed)
    (k : Nat) : ∀ v : Value, v.validIn heap →
      renderFuel lib (heap ++ [arr]) k v = renderFuel lib heap k v := by
  induction k with
  | zero => intro v _; cases v <;> rfl
  | succ k ih =>
    intro v hv
    cases v with
    | VList addr =>
      have ha : addr < heap.length := hv
      simp only [renderFuel]
      rw [slice_append_left heap arr addr ha,
        renderAll_congr _ _ _ (fun x hx => ih x (slice_valid heap hc addr x hx))]
    | _ => rfl

/-- C2. `BUILD_LIST n` on the stack `rest ++ vs`, where `vs` holds the `n`
values pushed last (first pushed first), succeeds and leaves `rest` followed by
one list value; that list is a new array holding exactly `vs`, in push order;
and when the values `vs` have the texts `parts`, the text of the list is
`"[" ++ parts joined by ", " ++ "]"`.  The stack is any stack that a machine
can hold: a slice of `Value`s within the limit of one allocation. -/
theorem C2_build_list (lib : Lib) (vm : VM) (ins : Instr) (rest vs : List Value)
    (hop : ins.opcode = "BUILD_LIST")
    (harg : strconv.Atoi (strings.TrimSpace ins.Arg) = some (vs.length : Int))
    (hs : vm.Stack = rest ++ vs)
    (hmem : vm.Stack.length * sizeofValue ≤ maxAlloc) :
    exec lib vm ins = .next { vm with
        Stack := rest ++ [VList vm.heap.length], heap := vm.heap ++ [vs], PC := vm.PC + 1 } ∧
      Heap.slice (vm.heap ++ [vs]) vm.heap.length = vs ∧
      (∀ addr, addr < vm.heap.length →
        Heap.slice (vm.heap ++ [vs]) addr = Heap.slice vm.heap addr) ∧
      (∀ parts, vm.heap.closed → (∀ v ∈ vs, v.validIn vm.heap) →
        renderAll (Value.String lib vm.heap) vs = some parts →
        Value.String lib (vm.heap ++ [vs]) (VList vm.heap.length) =
          some ("[" ++ ", ".intercalate parts ++ "]")) := by
  have hfit : makePanics (vs.length : Int) = false :=
    makePanics_of_fits vs.length
      (le_trans (Nat.mul_le_mul_right _ (by rw [hs]; simp)) hmem)
  refine ⟨?_, slice_append_new _ _, fun addr h => slice_append_left _ _ _ h, ?_⟩
  · simp [exec, hop, execBuildList, harg, hfit, popArgs_concat vs.length vm rest vs [] hs rfl,
      VM.push, VM.advance]
  · intro parts hc hv hp
    have h1 : renderAll (renderFuel lib (vm.heap ++ [vs]) vm.heap.length) vs = some parts := by
      rw [renderAll_congr _ (renderFuel lib vm.heap vm.heap.length) vs
        (fun x hx => renderFuel_append lib vm.heap vs hc _ x (hv x hx))]
      exact hp
    simp [Value.String, renderFuel, slice_append_new, h1]

/-- C2 at a concrete machine: `BUILD_LIST 3` after pushing the strings `A`,
`B`, `C` leaves a list whose text is `[A, B, C]`. -/
theorem C2_build_list_witness :
    exec exampleLib { NewVM [] with Stack := [VInt 0, VStr "A", VStr "B", VStr "C"] }
        ⟨0, "BUILD_LIST", "3"⟩ =
      .next { NewVM [] with Stack := [VInt 0, VList 0], heap := [[VStr "A", VStr "B", VStr "C"]],
                            PC := 1 } ∧
    Value.String exampleLib [[VStr "A", VStr "B", VStr "C"]] (VList 0) = some "[A, B, C]" := by
  have h := C2_build_list exampleLib
    { NewVM [] with Stack := [VInt 0, VStr "A", VStr "B", VStr "C"] } ⟨0, "BUILD_LIST", "3"⟩
    [VInt 0] [VStr "A", VStr "B", VStr "C"] (by decide) (by decide) rfl (by decide)
  exact ⟨h.1, h.2.2.2 ["A", "B", "C"] (by decide) (by decide) rfl⟩

/-! ## C3: BINARY_ADD -/

theorem wrapInt_of_inIntRange (x : Int) (h : inIntRange x) : wrapInt x = x := by
  unfold inIntRange at h
  unfold wrapInt
  omega

theorem wrapInt_inIntRange (x : Int) : inIntRange (wrapInt x) := by
  unfold inIntRange wrapInt
  omega

/-- C3 as stated fails on the code: adding the Integers `2^63 - 1` and `1`
pushes `-2^63`, not the sum `2^63`. -/
theorem C3_add_overflow_counterexample :
    ¬ (∀ (lib : Lib) (vm : VM) (ins : Instr) (rest : List Value) (x y : Int),
        ins.opcode = "BINARY_ADD" → inIntRange x → inIntRange y →
        vm.Stack = rest ++ [VInt x, VInt y] →
        exec lib vm ins = .next { vm with Stack := rest ++ [VInt (x + y)], PC := vm.PC + 1 }) := by
  intro h
  have h1 := h exampleLib { NewVM [] with Stack := [VInt 9223372036854775807, VInt 1] }
    ⟨0, "BINARY_ADD", ""⟩ [] 9223372036854775807 1 (by decide) (by decide) (by decide) rfl
  have h2 : exec exampleLib { NewVM [] with Stack := [VInt 9223372036854775807, VInt 1] }
      ⟨0, "BINARY_ADD", ""⟩ =
      .next { NewVM [] with Stack := [VInt (-9223372036854775808)], PC := 1 } := by rfl
  rw [h2] at h1
  have h3 := congrArg VM.Stack (Outcome.next.inj h1)
  revert h3
  decide

/-- C3, amended. `BINARY_ADD` removes its two operands and pushes one value:
for two String-or-Char operands (in any mix) the String made of the left text
followed by the right text; for two Integers `x` and `y` the Integer
`wrapInt (x + y)`, which lies in the range of `int` and is the sum `x + y`
whenever that sum lies in the range. -/
theorem C3_binary_add (lib : Lib) (vm : VM) (ins : Instr) (rest : List Value) (a b : Value)
    (hop : ins.opcode = "BINARY_ADD") (hs : vm.Stack = rest ++ [a, b]) :
    ((a.Kind = KindString ∨ a.Kind = KindChar) → (b.Kind = KindString ∨ b.Kind = KindChar) →
      exec lib vm ins =
        .next { vm with Stack := rest ++ [VStr (a.S ++ b.S)], PC := vm.PC + 1 }) ∧
    (∀ x y : Int, a = VInt x → b = VInt y →
      exec lib vm ins =
        .next { vm with Stack := rest ++ [VInt (wrapInt (x + y))], PC := vm.PC + 1 } ∧
      inIntRange (wrapInt (x + y)) ∧
      (inIntRange (x + y) → wrapInt (x + y) = x + y)) := by
  constructor
  · intro ha hb
    simp [exec, hop, execArith, pop2_concat vm rest a b hs, ha, hb, VM.push, VM.advance]
  · intro x y hx hy
    subst hx hy
    refine ⟨?_, wrapInt_inIntRange _, wrapInt_of_inIntRange _⟩
    simp [exec, hop, execArith, pop2_concat vm rest _ _ hs, Value.Kind, asInt, orZero,
      VM.push, VM.advance]

/-- C3 (amended) at concrete machines: a String and a Char are concatenated,
and `2 + 3` is `5`. -/
theorem C3_binary_add_witness :
    exec exampleLib { NewVM [] with Stack := [VStr "ab", VChar "c"] } ⟨0, "BINARY_ADD", ""⟩ =
      .next { NewVM [] with Stack := [VStr "abc"], PC := 1 } ∧
    exec exampleLib { NewVM [] with Stack := [VInt 2, VInt 3] } ⟨0, "binary_add", ""⟩ =
      .next { NewVM [] with Stack := [VInt 5], PC := 1 } :=
  ⟨(C3_binary_add exampleLib { NewVM [] with Stack := [VStr "ab", VChar "c"] }
      ⟨0, "BINARY_ADD", ""⟩ [] (VStr "ab") (VChar "c") (by decide) rfl).1
      (by decide) (by decide),
   ((C3_binary_add exampleLib { NewVM [] with Stack := [VInt 2, VInt 3] }
      ⟨0, "binary_add", ""⟩ [] (VInt 2) (VInt 3) (by decide) rfl).2 2 3 rfl rfl).1⟩

/-! ## C4: BINARY_DIVIDE and BINARY_MODULO -/

theorem tdiv_inIntRange (a b : Int) (ha : inIntRange a)
    (hne : ¬ (a = -(2 ^ 63) ∧ b = -1)) : inIntRange (a.tdiv b) := by
  unfold inIntRange at *
  have hq : (a.tdiv b).natAbs ≤ a.natAbs := by
    rw [Int.natAbs_tdiv]; exact Nat.div_le_self _ _
  by_cases hb : b = -1
  · subst hb
    have : a.tdiv (-1) = -a := by simp
    rw [this]
    omega
  · by_cases hb1 : b = 1
    · subst hb1
      simpa using ha
    · by_cases ha0 : a = 0
      · subst ha0; simp
      · have hlt : (a.tdiv b).natAbs < a.natAbs := by
          rw [Int.natAbs_tdiv]
          by_cases hb0 : b.natAbs = 0
          · have : a.natAbs.div b.natAbs = 0 := by
              show a.natAbs / b.natAbs = 0
              rw [hb0]; simp
            rw [this]; omega
          · exact Nat.div_lt_self (by omega) (by omega)
        omega

theorem tmod_nonpos (a b : Int) (h : a ≤ 0) : a.tmod b ≤ 0 := by
  rcases a with m | m <;> rcases b with n | n
  · have hm : m = 0 := by
      have : (m : Int) ≤ 0 := h
      omega
    subst hm
    simp
  · have hm : m = 0 := by
      have : (m : Int) ≤ 0 := h
      omega
    subst hm
    simp
  · show -Int.ofNat ((m + 1) % n) ≤ 0
    exact Int.neg_nonpos_of_nonneg (Int.ofNat_nonneg _)
  · show -Int.ofNat ((m + 1) % (n + 1)) ≤ 0
    exact Int.neg_nonpos_of_nonneg (Int.ofNat_nonneg _)

theorem natAbs_tmod_le (a b : Int) : (a.tmod b).natAbs ≤ a.natAbs := by
  rcases a with m | m <;> rcases b with n | n
  · show (Int.ofNat (m % n)).natAbs ≤ _
    simpa using Nat.mod_le m n
  · show (Int.ofNat (m % (n + 1))).natAbs ≤ _
    simpa using Nat.mod_le m (n + 1)
  · show (-Int.ofNat ((m + 1) % n)).natAbs ≤ _
    simpa using Nat.mod_le (m + 1) n
  · show (-Int.ofNat ((m + 1) % (n + 1))).natAbs ≤ _
    simpa using Nat.mod_le (m + 1) (n + 1)

theorem tmod_inIntRange (a b : Int) (ha : inIntRange a) : inIntRange (a.tmod b) := by
  unfold inIntRange at *
  have hq := natAbs_tmod_le a b
  have hs : 0 ≤ a → 0 ≤ a.tmod b := Int.tmod_nonneg b
  have hn : a ≤ 0 → a.tmod b ≤ 0 := tmod_nonpos a b
  omega

/-- C4 as stated fails on the code: dividing the Integer `-2^63` by `-1`
pushes `-2^63`, not the quotient `2^63`. -/
theorem C4_divide_overflow_counterexample :
    ¬ (∀ (lib : Lib) (vm : VM) (ins : Instr) (rest : List Value) (a b : Value) (ai bi : Int),
        ins.opcode = "BINARY_DIVIDE" → vm.Stack = rest ++ [a, b] →
        a = VInt ai → inIntRange ai → b = VInt bi → inIntRange bi → bi ≠ 0 →
        exec lib vm ins =
          .next { vm with Stack := rest ++ [VInt (ai.tdiv bi)], PC := vm.PC + 1 }) := by
  intro h
  have h1 := h exampleLib { NewVM [] with Stack := [VInt (-9223372036854775808), VInt (-1)] }
    ⟨0, "BINARY_DIVIDE", ""⟩ [] _ _ (-9223372036854775808) (-1) (by decide) rfl rfl
    (by decide) rfl (by decide) (by decide)
  have h2 : exec exampleLib { NewVM [] with Stack := [VInt (-9223372036854775808), VInt (-1)] }
      ⟨0, "BINARY_DIVIDE", ""⟩ =
      .next { NewVM [] with Stack := [VInt (-9223372036854775808)], PC := 1 } := by rfl
  rw [h2] at h1
  have h3 := congrArg VM.Stack (Outcome.next.inj h1)
  revert h3
  decide

/-- C4, amended. Let the left operand coerce to the integer `ai` and the right
(top) operand to `bi`.  When `bi = 0`, `BINARY_DIVIDE` fails with the
division-by-zero error and `BINARY_MODULO` with the modulo-by-zero error, the
two operands being removed and nothing pushed.  When `bi ≠ 0`, `BINARY_DIVIDE`
pushes the Integer `wrapInt q` and `BINARY_MODULO` the Integer `wrapInt r`, where
`q` is `ai / bi` truncated toward zero and `ai = q * bi + r`, with `r` of the sign
of `ai` and smaller than `bi` in absolute value; for `ai` in the range of `int`,
`wrapInt r = r`, and `wrapInt q = q` unless `ai = -2^63` and `bi = -1`. -/
theorem C4_divide_modulo (lib : Lib) (vm : VM) (insD insM : Instr) (rest : List Value)
    (a b : Value) (ai bi : Int)
    (hopD : insD.opcode = "BINARY_DIVIDE") (hopM : insM.opcode = "BINARY_MODULO")
    (hs : vm.Stack = rest ++ [a, b]) (ha : asInt a = .ok ai) (hb : asInt b = .ok bi) :
    (bi = 0 →
      exec lib vm insD = .fail .divisionByZero { vm with Stack := rest } ∧
      exec lib vm insM = .fail .moduloByZero { vm with Stack := rest }) ∧
    (bi ≠ 0 →
      exec lib vm insD =
        .next { vm with Stack := rest ++ [VInt (wrapInt (ai.tdiv bi))], PC := vm.PC + 1 } ∧
      exec lib vm insM =
        .next { vm with Stack := rest ++ [VInt (wrapInt (ai.tmod bi))], PC := vm.PC + 1 } ∧
      ai = ai.tdiv bi * bi + ai.tmod bi ∧
      (ai.tmod bi).natAbs < bi.natAbs ∧ (0 ≤ ai → 0 ≤ ai.tmod bi) ∧ (ai ≤ 0 → ai.tmod bi ≤ 0) ∧
      (inIntRange ai → wrapInt (ai.tmod bi) = ai.tmod bi) ∧
      (inIntRange ai → ¬ (ai = -(2 ^ 63) ∧ bi = -1) → wrapInt (ai.tdiv bi) = ai.tdiv bi)) := by
  constructor
  · intro h0
    subst h0
    constructor
    · simp [exec, hopD, execArith, pop2_concat vm rest a b hs, ha, hb, orZero]
    · simp [exec, hopM, execArith, pop2_concat vm rest a b hs, ha, hb, orZero]
  · intro hne
    refine ⟨?_, ?_, ?_, ?_, Int.tmod_nonneg bi, tmod_nonpos ai bi,
      fun hr => wrapInt_of_inIntRange _ (tmod_inIntRange ai bi hr),
      fun hr hx => wrapInt_of_inIntRange _ (tdiv_inIntRange ai bi hr hx)⟩
    · simp [exec, hopD, execArith, pop2_concat vm rest a b hs, ha, hb, orZero, hne,
        VM.push, VM.advance]
    · simp [exec, hopM, execArith, pop2_concat vm rest a b hs, ha, hb, orZero, hne,
        VM.push, VM.advance]
    · have := Int.tmod_add_tdiv ai bi
      rw [Int.mul_comm] at this
      omega
    · rcases ai with m | m <;> rcases bi with n | n
      · show (Int.ofNat (m % n)).natAbs < _
        have hn : 0 < n := Nat.pos_of_ne_zero (fun h => hne (by simp [h]))
        simpa using Nat.mod_lt m hn
      · show (Int.ofNat (m % (n + 1))).natAbs < _
        simpa using Nat.mod_lt m (Nat.succ_pos n)
      · show (-Int.ofNat ((m + 1) % n)).natAbs < _
        have hn : 0 < n := Nat.pos_of_ne_zero (fun h => hne (by simp [h]))
        simpa using Nat.mod_lt (m + 1) hn
      · show (-Int.ofNat ((m + 1) % (n + 1))).natAbs < _
        simpa using Nat.mod_lt (m + 1) (Nat.succ_pos n)

/-- C4 (amended) at concrete machines: `-7 / 2` is `-3`, `-7 % 2` is `-1`, and a
zero divisor is refused without a push. -/
theorem C4_divide_modulo_witness :
    (exec exampleLib { NewVM [] with Stack := [VInt (-7), VInt 2] } ⟨0, "BINARY_DIVIDE", ""⟩ =
        .next { NewVM [] with Stack := [VInt (-3)], PC := 1 } ∧
      exec exampleLib { NewVM [] with Stack := [VInt (-7), VInt 2] } ⟨0, "BINARY_MODULO", ""⟩ =
        .next { NewVM [] with Stack := [VInt (-1)], PC := 1 }) ∧
    (exec exampleLib { NewVM [] with Stack := [VInt 5, VBool false] } ⟨0, "BINARY_DIVIDE", ""⟩ =
        .fail .divisionByZero (NewVM []) ∧
      exec exampleLib { NewVM [] with Stack := [VInt 5, VBool false] } ⟨0, "BINARY_MODULO", ""⟩ =
        .fail .moduloByZero (NewVM [])) := by
  have h1 := (C4_divide_modulo exampleLib { NewVM [] with Stack := [VInt (-7), VInt 2] }
    ⟨0, "BINARY_DIVIDE", ""⟩ ⟨0, "BINARY_MODULO", ""⟩ [] (VInt (-7)) (VInt 2) (-7) 2
    (by decide) (by decide) rfl rfl rfl).2 (by decide)
  have h2 := (C4_divide_modulo exampleLib { NewVM [] with Stack := [VInt 5, VBool false] }
    ⟨0, "BINARY_DIVIDE", ""⟩ ⟨0, "BINARY_MODULO", ""⟩ [] (VInt 5) (VBool false) 5 0
    (by decide) (by decide) rfl rfl rfl).1 rfl
  exact ⟨⟨h1.1, h1.2.1⟩, h2⟩

/-! ## C5: equality of equal numbers -/

theorem scaled_cast (neg : Bool) (m : Nat) (e k : Int) (hk : k ≤ e) :
    ((Float64.scaled neg m e k : Int) : ℚ) =
      ((if neg then -1 else 1) * (m : ℚ) * (2 : ℚ) ^ e) * ((2 : ℚ) ^ k)⁻¹ := by
  have h2 : ((2 : ℚ) ^ (e - k).toNat) = (2 : ℚ) ^ e * ((2 : ℚ) ^ k)⁻¹ := by
    rw [← zpow_natCast, Int.toNat_of_nonneg (by omega), zpow_sub₀ (by norm_num)]
    rfl
  unfold Float64.scaled
  cases neg <;> simp [h2] <;> ring

theorem float_eq_of_toRat (x y : Float64) (q : ℚ) (hx : x.toRat = some q)
    (hy : y.toRat = some q) : Float64.eq x y = true := by
  cases x with
  | nan => simp [Float64.toRat] at hx
  | inf n => simp [Float64.toRat] at hx
  | fin n1 m1 e1 =>
    cases y with
    | nan => simp [Float64.toRat] at hy
    | inf n => simp [Float64.toRat] at hy
    | fin n2 m2 e2 =>
      simp only [Float64.toRat, Option.some.injEq] at hx hy
      simp only [Float64.eq, decide_eq_true_eq]
      have h1 := scaled_cast n1 m1 e1 (min e1 e2) (min_le_left _ _)
      have h2 := scaled_cast n2 m2 e2 (min e1 e2) (min_le_right _ _)
      rw [hx] at h1
      rw [hy] at h2
      exact Int.cast_injective (h1.trans h2.symm)

theorem excessBits_spec (fuel : Nat) : ∀ n : Nat, n < 2 ^ 53 * 2 ^ fuel →
    n / 2 ^ (Float64.excessBits fuel n) < 2 ^ 53 ∧
    (Float64.excessBits fuel n ≠ 0 → 2 ^ 53 ≤ n / 2 ^ (Float64.excessBits fuel n - 1)) := by
  induction fuel with
  | zero =>
    intro n hn
    simp [Float64.excessBits] at *
    exact hn
  | succ fuel ih =>
    intro n hn
    have hsucc : Float64.excessBits (fuel + 1) n =
        if n < 2 ^ 53 then 0 else Float64.excessBits fuel (n / 2) + 1 := rfl
    by_cases h : n < 2 ^ 53
    · rw [hsucc, if_pos h]
      exact ⟨by simpa using h, fun h0 => absurd rfl h0⟩
    · have hn2 : n / 2 < 2 ^ 53 * 2 ^ fuel := by
        rw [pow_succ] at hn
        omega
      obtain ⟨h1, h2⟩ := ih (n / 2) hn2
      rw [hsucc, if_neg h]
      constructor
      · rw [pow_succ, Nat.mul_comm, ← Nat.div_div_eq_div_mul]
        exact h1
      · intro _
        rw [Nat.add_sub_cancel]
        by_cases hk : Float64.excessBits fuel (n / 2) = 0
        · rw [hk, pow_zero, Nat.div_one]; omega
        · have := h2 hk
          rw [Nat.div_div_eq_div_mul, ← pow_succ', Nat.sub_add_cancel (Nat.pos_of_ne_zero hk)] at this
          exact this

theorem lt_two_pow_self_mul (n : Nat) : n < 2 ^ 53 * 2 ^ n :=
  lt_of_lt_of_le (Nat.lt_two_pow n) (Nat.le_mul_of_pos_left _ (by positivity))

/-- The conversion `float64(i)` is exact when `i` is the value of a float64. -/
theorem ofInt_exact (i : Int) (neg : Bool) (m : Nat) (e : Int) (hm : m < 2 ^ 53)
    (hv : (Float64.fin neg m e).toRat = some (i : ℚ)) :
    (Float64.ofInt i).toRat = some (i : ℚ) := by
  simp only [Float64.toRat, Option.some.injEq] at hv
  -- the magnitude
  have hn : (i.natAbs : ℚ) = (m : ℚ) * (2 : ℚ) ^ e := by
    have h2 : (0 : ℚ) ≤ (m : ℚ) * (2 : ℚ) ^ e := by positivity
    rw [Nat.cast_natAbs, Int.cast_abs, ← hv]
    cases neg <;> simp [abs_mul, abs_of_nonneg h2]
  obtain ⟨hk1, hk2⟩ := excessBits_spec i.natAbs i.natAbs (lt_two_pow_self_mul _)
  set n := i.natAbs with hndef
  set k := Float64.excessBits n n with hkdef
  have hdvd : 2 ^ k ∣ n := by
    by_cases hk0 : k = 0
    · rw [hk0]; simp
    · have hge := hk2 hk0
      have hge2 : 2 ^ 53 * 2 ^ (k - 1) ≤ n := by
        have := Nat.div_mul_le_self n (2 ^ (k - 1))
        calc 2 ^ 53 * 2 ^ (k - 1) ≤ n / 2 ^ (k - 1) * 2 ^ (k - 1) := Nat.mul_le_mul_right _ hge
          _ ≤ n := this
      -- e ≥ k
      have hek : (k : Int) ≤ e := by
        by_contra hlt
        push_neg at hlt
        have h5 : (n : ℚ) < 2 ^ 53 * 2 ^ (k - 1) := by
          rw [hn]
          have h6 : (2 : ℚ) ^ e ≤ (2 : ℚ) ^ ((k - 1 : ℕ) : ℤ) := by
            apply zpow_le_zpow_right₀ (by norm_num)
            omega
          have h7 : (m : ℚ) < 2 ^ 53 := by exact_mod_cast hm
          rw [zpow_natCast] at h6
          calc (m : ℚ) * 2 ^ e ≤ (m : ℚ) * 2 ^ (k - 1) := by gcongr
            _ < 2 ^ 53 * 2 ^ (k - 1) := by gcongr
        have h8 : ((2 ^ 53 * 2 ^ (k - 1) : ℕ) : ℚ) ≤ (n : ℚ) := by exact_mod_cast hge2
        push_cast at h8
        linarith
      have he0 : 0 ≤ e := by omega
      have hnat : n = m * 2 ^ e.toNat := by
        have : (n : ℚ) = ((m * 2 ^ e.toNat : ℕ) : ℚ) := by
          rw [hn]; push_cast
          rw [← zpow_natCast, Int.toNat_of_nonneg he0]
        exact_mod_cast this
      rw [hnat]
      apply Dvd.dvd.mul_left
      apply pow_dvd_pow
      omega
  have hr : n % 2 ^ k = 0 := Nat.mod_eq_zero_of_dvd hdvd
  have hq : n / 2 ^ k * 2 ^ k = n := Nat.div_mul_cancel hdvd
  have hpos : 0 < 2 ^ k := by positivity
  have hof : Float64.ofInt i = Float64.fin (decide (i < 0)) (n / 2 ^ k) k := by
    unfold Float64.ofInt
    simp only [← hndef, ← hkdef, hr]
    have h0 : ¬ (0 = 2 ^ k) := by omega
    simp [h0]
  rw [hof]
  simp only [Float64.toRat, Option.some.injEq]
  have hval : ((n / 2 ^ k : ℕ) : ℚ) * (2 : ℚ) ^ (k : ℤ) = (n : ℚ) := by
    rw [zpow_natCast]
    exact_mod_cast hq
  rw [mul_assoc, hval]
  have h4 : ((n : ℕ) : ℚ) = |(i : ℚ)| := by
    rw [hndef, Nat.cast_natAbs, Int.cast_abs]
  rw [h4]
  by_cases hi : i < 0
  · have : (i : ℚ) < 0 := by exact_mod_cast hi
    simp [hi, abs_of_neg this]
  · have : (0 : ℚ) ≤ (i : ℚ) := by exact_mod_cast (not_lt.mp hi)
    simp [hi, abs_of_nonneg this]

theorem isNum_of_number (v : Value) (q : ℚ) (h : v.number = some q) : isNum v = true := by
  cases v <;> simp [Value.number] at h <;> rfl

theorem cmpFloat_toRat_of_rep (v : Value) (q : ℚ) (hv : v.number = some q)
    (neg : Bool) (m : Nat) (e : Int) (hm : m < 2 ^ 53)
    (hq : (Float64.fin neg m e).toRat = some q) : (cmpFloat v).toRat = some q := by
  cases v with
  | VInt i =>
    simp only [Value.number, Option.some.injEq] at hv
    subst hv
    exact ofInt_exact i neg m e hm hq
  | VFloat f => exact hv
  | VBool b =>
    simp only [Value.number, Option.some.injEq] at hv
    subst hv
    cases b <;> simp [cmpFloat, Float64.toRat]
  | VNone => simp [Value.number] at hv
  | VStr s => simp [Value.number] at hv
  | VChar s => simp [Value.number] at hv
  | VList a => simp [Value.number] at hv
  | VFunc n => simp [Value.number] at hv

/-- A number denoted by a Float or a Boolean is the value of a float64. -/
theorem rep_of_number (v : Value) (q : ℚ) (hv : v.number = some q)
    (hd : ∀ f, v = VFloat f → f.isDouble) (hi : ∀ i, v ≠ VInt i) :
    ∃ neg m e, m < 2 ^ 53 ∧ (Float64.fin neg m e).toRat = some q := by
  cases v with
  | VInt i => exact absurd rfl (hi i)
  | VFloat f =>
    cases f with
    | nan => simp [Value.number, Float64.toRat] at hv
    | inf n => simp [Value.number, Float64.toRat] at hv
    | fin neg m e => exact ⟨neg, m, e, (hd _ rfl).1, hv⟩
  | VBool b =>
    simp only [Value.number, Option.some.injEq] at hv
    subst hv
    cases b
    · exact ⟨false, 0, 0, by norm_num, by simp [Float64.toRat]⟩
    · exact ⟨false, 1, 0, by norm_num, by simp [Float64.toRat]⟩
  | VNone => simp [Value.number] at hv
  | VStr s => simp [Value.number] at hv
  | VChar s => simp [Value.number] at hv
  | VList a => simp [Value.number] at hv
  | VFunc n => simp [Value.number] at hv

theorem cmpFloat_eq_of_number (a b : Value) (q : ℚ) (ha : a.number = some q)
    (hb : b.number = some q) (hda : ∀ f, a = VFloat f → f.isDouble)
    (hdb : ∀ f, b = VFloat f → f.isDouble) :
    Float64.eq (cmpFloat a) (cmpFloat b) = true := by
  by_cases hia : ∃ i, a = VInt i
  · by_cases hib : ∃ j, b = VInt j
    · obtain ⟨i, rfl⟩ := hia
      obtain ⟨j, rfl⟩ := hib
      simp only [Value.number, Option.some.injEq] at ha hb
      have hij : i = j := by
        have : (i : ℚ) = (j : ℚ) := ha.trans hb.symm
        exact_mod_cast this
      subst hij
      exact float_eq_of_toRat _ _ _ rfl rfl
    · obtain ⟨neg, m, e, hm, hq⟩ := rep_of_number b q hb hdb (fun i h => hib ⟨i, h⟩)
      exact float_eq_of_toRat _ _ q (cmpFloat_toRat_of_rep a q ha neg m e hm hq)
        (cmpFloat_toRat_of_rep b q hb neg m e hm hq)
  · obtain ⟨neg, m, e, hm, hq⟩ := rep_of_number a q ha hda (fun i h => hia ⟨i, h⟩)
    exact float_eq_of_toRat _ _ q (cmpFloat_toRat_of_rep a q ha neg m e hm hq)
      (cmpFloat_toRat_of_rep b q hb neg m e hm hq)

/-- C5. For two operands among Integer, Float (a float64 value) and Boolean that
denote the same number `q` (`True` as 1, `False` as 0), whichever of the two is
on top, `COMPARE_OP "=="` succeeds and pushes `True`, and `COMPARE_OP "!="`
succeeds and pushes `False`. -/
theorem C5_equal_numbers (lib : Lib) (vm : VM) (insEq insNe : Instr) (rest : List Value)
    (a b : Value) (q : ℚ)
    (hopE : insEq.opcode = "COMPARE_OP") (hargE : strings.TrimSpace insEq.Arg = "==")
    (hopN : insNe.opcode = "COMPARE_OP") (hargN : strings.TrimSpace insNe.Arg = "!=")
    (hs : vm.Stack = rest ++ [a, b])
    (ha : a.number = some q) (hb : b.number = some q)
    (hda : ∀ f, a = VFloat f → f.isDouble) (hdb : ∀ f, b = VFloat f → f.isDouble) :
    exec lib vm insEq = .next { vm with Stack := rest ++ [VBool true], PC := vm.PC + 1 } ∧
    exec lib vm insNe = .next { vm with Stack := rest ++ [VBool false], PC := vm.PC + 1 } := by
  have he := cmpFloat_eq_of_number a b q ha hb hda hdb
  have hna := isNum_of_number a q ha
  have hnb := isNum_of_number b q hb
  constructor
  · simp [exec, hopE, hargE, pop2_concat vm rest a b hs, cmp, hna, hnb, he, VM.push,
      VM.advance]
  · simp [exec, hopN, hargN, pop2_concat vm rest a b hs, cmp, hna, hnb, he, VM.push,
      VM.advance]

/-- C5 at concrete machines: Integer 1 against Float 1.0, and Float 1.0 against
Boolean True. -/
theorem C5_equal_numbers_witness :
    (exec exampleLib { NewVM [] with Stack := [VInt 1, VFloat (.fin false 1 0)] }
        ⟨0, "COMPARE_OP", "=="⟩ = .next { NewVM [] with Stack := [VBool true], PC := 1 } ∧
      exec exampleLib { NewVM [] with Stack := [VInt 1, VFloat (.fin false 1 0)] }
        ⟨0, "COMPARE_OP", "!="⟩ = .next { NewVM [] with Stack := [VBool false], PC := 1 }) ∧
    (exec exampleLib { NewVM [] with Stack := [VFloat (.fin false 1 0), VBool true] }
        ⟨0, "COMPARE_OP", "=="⟩ = .next { NewVM [] with Stack := [VBool true], PC := 1 } ∧
      exec exampleLib { NewVM [] with Stack := [VFloat (.fin false 1 0), VBool true] }
        ⟨0, "COMPARE_OP", "!="⟩ = .next { NewVM [] with Stack := [VBool false], PC := 1 }) :=
  ⟨C5_equal_numbers exampleLib { NewVM [] with Stack := [VInt 1, VFloat (.fin false 1 0)] }
      ⟨0, "COMPARE_OP", "=="⟩ ⟨0, "COMPARE_OP", "!="⟩ [] (VInt 1) (VFloat (.fin false 1 0)) 1
      (by decide) (by decide) (by decide) (by decide) rfl
      (by simp [Value.number]) (by simp [Value.number, Float64.toRat])
      (fun f h => by cases h) (fun f h => by cases h; decide),
   C5_equal_numbers exampleLib { NewVM [] with Stack := [VFloat (.fin false 1 0), VBool true] }
      ⟨0, "COMPARE_OP", "=="⟩ ⟨0, "COMPARE_OP", "!="⟩ [] (VFloat (.fin false 1 0)) (VBool true) 1
      (by decide) (by decide) (by decide) (by decide) rfl
      (by simp [Value.number, Float64.toRat]) (by simp [Value.number])
      (fun f h => by cases h; decide) (fun f h => by cases h)⟩

/-! ## C6: which operands COMPARE_OP accepts -/

theorem cmp_num (op : String) (a b : Value) (hop : isCompareOp op) (ha : isNum a = true)
    (hb : isNum b = true) : ∃ r, cmp op a b = .ok r := by
  rcases hop with rfl | rfl | rfl | rfl | rfl | rfl <;> simp [cmp, ha, hb]

theorem cmp_other (op : String) (a b : Value) (h1 : ¬ (isNum a = true ∧ isNum b = true))
    (h2 : ¬ (a.Kind = KindString ∧ b.Kind = KindString)) :
    cmp op a b = .error (.unsupportedComparison a.Kind op b.Kind) := by
  unfold cmp
  rw [if_neg (by simpa [Bool.and_eq_true] using h1), if_neg h2]

theorem cmp_str (op : String) (s t : String) (hop : isCompareOp op) :
    ∃ r, cmp op (VStr s) (VStr t) = .ok r ∧
      (op = "<" → (r = true ↔ s < t)) ∧ (op = "<=" → (r = true ↔ s ≤ t)) ∧
      (op = ">" → (r = true ↔ t < s)) ∧ (op = ">=" → (r = true ↔ t ≤ s)) ∧
      (op = "==" → (r = true ↔ s = t)) ∧ (op = "!=" → (r = true ↔ s ≠ t)) := by
  have hlt : ∀ x y : String, x < y ↔ x.data < y.data :=
    fun _ _ => String.lt_iff_toList_lt
  have hle : ∀ x y : String, x ≤ y ↔ ¬ y.data < x.data :=
    fun x y => by rw [← hlt]; exact Iff.rfl
  rcases hop with rfl | rfl | rfl | rfl | rfl | rfl <;>
    simp [cmp, isNum, Value.Kind, Value.S, hlt, hle, em]

/-- C6 at the failing inputs: the program that loads the Char `a` twice and
compares the two with `==`, which the loader accepts, ends with the
unsupported-comparison error, and so does the comparison of a String with a
Char, whereas `BINARY_ADD` takes the same two Chars as texts and pushes their
concatenation, and the text of a Char is its content like that of a String. -/
theorem C6_char_comparison_fails :
    parseFile ["0", "LOAD_CONST", "'a'", "1", "LOAD_CONST", "'a'", "2", "COMPARE_OP", "=="] =
      .ok [⟨0, "LOAD_CONST", "'a'"⟩, ⟨1, "LOAD_CONST", "'a'"⟩, ⟨2, "COMPARE_OP", "=="⟩] ∧
    exec exampleLib (NewVM []) ⟨0, "LOAD_CONST", "'a'"⟩ =
      .next { NewVM [] with Stack := [VChar "a"], PC := 1 } ∧
    VM.Run exampleLib 3
        (NewVM [⟨0, "LOAD_CONST", "'a'"⟩, ⟨1, "LOAD_CONST", "'a'"⟩, ⟨2, "COMPARE_OP", "=="⟩]) =
      some (.error (.unsupportedComparison KindChar "==" KindChar)
        { NewVM [⟨0, "LOAD_CONST", "'a'"⟩, ⟨1, "LOAD_CONST", "'a'"⟩, ⟨2, "COMPARE_OP", "=="⟩]
            with PC := 2 }) ∧
    exec exampleLib { NewVM [] with Stack := [VStr "a", VChar "b"] } ⟨0, "COMPARE_OP", "<"⟩ =
      .fail (.unsupportedComparison KindString "<" KindChar) (NewVM []) ∧
    exec exampleLib { NewVM [] with Stack := [VChar "a", VChar "a"] } ⟨0, "BINARY_ADD", ""⟩ =
      .next { NewVM [] with Stack := [VStr "aa"], PC := 1 } ∧
    Value.String exampleLib [] (VChar "a") = Value.String exampleLib [] (VStr "a") :=
  ⟨by decide, rfl, rfl, rfl, rfl, rfl⟩

/-- What `COMPARE_OP` does on each pair of operand kinds.  For each of the six
operators and two operands `a` (left, below) and `b` (right, on top),
`COMPARE_OP` succeeds, pushing a Boolean in place of the operands, exactly when
both are numeric-like (Integer, Float, Boolean) or both are Strings; for two
Strings the Boolean is the lexicographic comparison of the left text with the
right text; in every other case, a Char operand included, it fails with the
unsupported-comparison error, the operands removed and nothing pushed. -/
theorem compare_op_kinds (lib : Lib) (vm : VM) (ins : Instr) (rest : List Value) (a b : Value)
    (hop : ins.opcode = "COMPARE_OP") (hcop : isCompareOp (strings.TrimSpace ins.Arg))
    (hs : vm.Stack = rest ++ [a, b]) :
    (((isNum a = true ∧ isNum b = true) ∨ (a.Kind = KindString ∧ b.Kind = KindString)) ↔
      ∃ r, exec lib vm ins = .next { vm with Stack := rest ++ [VBool r], PC := vm.PC + 1 }) ∧
    (∀ s t, a = VStr s → b = VStr t →
      ∃ r, exec lib vm ins = .next { vm with Stack := rest ++ [VBool r], PC := vm.PC + 1 } ∧
        (strings.TrimSpace ins.Arg = "<" → (r = true ↔ s < t)) ∧
        (strings.TrimSpace ins.Arg = "<=" → (r = true ↔ s ≤ t)) ∧
        (strings.TrimSpace ins.Arg = ">" → (r = true ↔ t < s)) ∧
        (strings.TrimSpace ins.Arg = ">=" → (r = true ↔ t ≤ s)) ∧
        (strings.TrimSpace ins.Arg = "==" → (r = true ↔ s = t)) ∧
        (strings.TrimSpace ins.Arg = "!=" → (r = true ↔ s ≠ t))) ∧
    (¬ (isNum a = true ∧ isNum b = true) → ¬ (a.Kind = KindString ∧ b.Kind = KindString) →
      exec lib vm ins =
        .fail (.unsupportedComparison a.Kind (strings.TrimSpace ins.Arg) b.Kind)
          { vm with Stack := rest }) := by
  have hex : exec lib vm ins =
      match cmp (strings.TrimSpace ins.Arg) a b with
      | .error e => .fail e { vm with Stack := rest }
      | .ok res => .next { vm with Stack := rest ++ [VBool res], PC := vm.PC + 1 } := by
    simp only [exec, hop, pop2_concat vm rest a b hs, VM.push, VM.advance]
    cases cmp (strings.TrimSpace ins.Arg) a b <;> simp
  have hstr : ∀ s t, a = VStr s → b = VStr t →
      ∃ r, exec lib vm ins = .next { vm with Stack := rest ++ [VBool r], PC := vm.PC + 1 } ∧
        (strings.TrimSpace ins.Arg = "<" → (r = true ↔ s < t)) ∧
        (strings.TrimSpace ins.Arg = "<=" → (r = true ↔ s ≤ t)) ∧
        (strings.TrimSpace ins.Arg = ">" → (r = true ↔ t < s)) ∧
        (strings.TrimSpace ins.Arg = ">=" → (r = true ↔ t ≤ s)) ∧
        (strings.TrimSpace ins.Arg = "==" → (r = true ↔ s = t)) ∧
        (strings.TrimSpace ins.Arg = "!=" → (r = true ↔ s ≠ t)) := by
    intro s t hsa htb
    subst hsa htb
    obtain ⟨r, hr, hrest⟩ := cmp_str _ s t hcop
    exact ⟨r, by rw [hex, hr], hrest⟩
  have hother : ¬ (isNum a = true ∧ isNum b = true) →
      ¬ (a.Kind = KindString ∧ b.Kind = KindString) →
      exec lib vm ins =
        .fail (.unsupportedComparison a.Kind (strings.TrimSpace ins.Arg) b.Kind)
          { vm with Stack := rest } := by
    intro h1 h2
    rw [hex, cmp_other _ a b h1 h2]
  refine ⟨⟨?_, ?_⟩, hstr, hother⟩
  · rintro (⟨ha, hb⟩ | ⟨ha, hb⟩)
    · obtain ⟨r, hr⟩ := cmp_num _ a b hcop ha hb
      exact ⟨r, by rw [hex, hr]⟩
    · cases a <;> simp [Value.Kind] at ha
      cases b <;> simp [Value.Kind] at hb
      obtain ⟨r, hr, _⟩ := hstr _ _ rfl rfl
      exact ⟨r, hr⟩
  · rintro ⟨r, hr⟩
    by_contra hcon
    obtain ⟨h1, h2⟩ := not_or.mp hcon
    rw [hother h1 h2] at hr
    cases hr

/-- The comparison at concrete machines: `"abc" < "abd"` is pushed as a Boolean
that is true, and a String against an Integer is refused. -/
theorem compare_op_kinds_example :
    (∃ r, exec exampleLib { NewVM [] with Stack := [VStr "abc", VStr "abd"] }
        ⟨0, "COMPARE_OP", "<"⟩ = .next { NewVM [] with Stack := [VBool r], PC := 1 } ∧
      (r = true ↔ "abc" < "abd")) ∧
    exec exampleLib { NewVM [] with Stack := [VStr "abc", VInt 1] } ⟨0, "COMPARE_OP", "<"⟩ =
      .fail (.unsupportedComparison KindString "<" KindInt) (NewVM []) := by
  have h1 := compare_op_kinds exampleLib { NewVM [] with Stack := [VStr "abc", VStr "abd"] }
    ⟨0, "COMPARE_OP", "<"⟩ [] (VStr "abc") (VStr "abd") (by decide) (Or.inl (by decide)) rfl
  have h2 := compare_op_kinds exampleLib { NewVM [] with Stack := [VStr "abc", VInt 1] }
    ⟨0, "COMPARE_OP", "<"⟩ [] (VStr "abc") (VInt 1) (by decide) (Or.inl (by decide)) rfl
  obtain ⟨r, hr, hlt, _⟩ := h1.2.1 "abc" "abd" rfl rfl
  exact ⟨⟨r, hr, hlt (by decide)⟩, h2.2.2 (by decide) (by decide)⟩

/-! ## C7: JUMP_ABSOLUTE -/

/-- What the loop of `NewVM` leaves in the map for the index `t`: the old entry
when no instruction carries `t`, and otherwise the position of the last
instruction that carries it. -/
theorem indexLoop_spec (code : List Instr) : ∀ (start : Nat) (m : Int → Option Nat) (t : Int),
    (indexLoop code start m t = m t ∧ ∀ i ∈ code, i.Index ≠ t) ∨
    (∃ k ins, code[k]? = some ins ∧ ins.Index = t ∧
      indexLoop code start m t = some (start + k) ∧
      ∀ j ins2, k < j → code[j]? = some ins2 → ins2.Index ≠ t) := by
  induction code with
  | nil => intro start m t; left; simp [indexLoop]
  | cons ins rest ih =>
    intro start m t
    rcases ih (start + 1) (fun k => if k = ins.Index then some start else m k) t with
      ⟨h1, h2⟩ | ⟨k, ins1, hk, hi, hl, hlast⟩
    · by_cases ht : ins.Index = t
      · right
        refine ⟨0, ins, by simp, ht, ?_, ?_⟩
        · subst ht
          simp [indexLoop, h1]
        · intro j ins2 hj hget
          cases j with
          | zero => omega
          | succ j =>
            simp only [List.getElem?_cons_succ] at hget
            exact h2 ins2 (List.mem_iff_getElem?.mpr ⟨_, hget⟩)
      · left
        refine ⟨?_, ?_⟩
        · simp only [indexLoop, h1]
          simp [Ne.symm ht]
        · intro i hi
          rcases List.mem_cons.mp hi with rfl | hi
          · exact ht
          · exact h2 i hi
    · right
      refine ⟨k + 1, ins1, by simpa using hk, hi, ?_, ?_⟩
      · simp only [indexLoop, hl]
        congr 1
        omega
      · intro j ins2 hj hget
        cases j with
        | zero => omega
        | succ j =>
          simp only [List.getElem?_cons_succ] at hget
          exact hlast j ins2 (by omega) hget

/-- C7. In a machine that holds a loaded program and whose next instruction is
`JUMP_ABSOLUTE` with an argument that reads as the integer `t`: when no
instruction of the program has logical index `t`, `Run` returns the
unknown-jump-target error; otherwise the turn of the loop only sets the program
counter to the position the map gives for `t` (stack, environment and the rest
of the machine unchanged), and the instruction at that position has logical
index `t`. -/
theorem C7_jump_absolute (lib : Lib) (vm : VM) (ins : Instr) (t : Int)
    (hload : vm.loaded) (hf : vm.Code[vm.PC]? = some ins)
    (hop : ins.opcode = "JUMP_ABSOLUTE")
    (harg : strconv.Atoi (strings.TrimSpace ins.Arg) = some t) :
    ((∀ i ∈ vm.Code, i.Index ≠ t) →
      ∀ fuel, VM.Run lib (fuel + 1) vm = some (.error (.unknownJumpTarget t) vm)) ∧
    ((∃ i ∈ vm.Code, i.Index = t) →
      ∃ pc target, vm.Index2PC t = some pc ∧ step lib vm = .next { vm with PC := pc } ∧
        vm.Code[pc]? = some target ∧ target.Index = t) := by
  have hex : step lib vm =
      match vm.Index2PC t with
      | none => .fail (.unknownJumpTarget t) vm
      | some pc => .next { vm with PC := pc } := by
    rw [step_fetch lib vm ins hf]
    simp only [exec, hop, execJumpAbsolute, harg]
    cases vm.Index2PC t <;> rfl
  constructor
  · intro hno fuel
    have hmap : vm.Index2PC t = none := by
      rw [hload]
      rcases indexLoop_spec vm.Code 0 (fun _ => none) t with ⟨h1, _⟩ | ⟨k, ins1, hk, hi, _, _⟩
      · exact h1
      · exact absurd hi (hno ins1 (List.mem_iff_getElem?.mpr ⟨_, hk⟩))
    simp [VM.Run, hex, hmap]
  · rintro ⟨i, hi, hit⟩
    rcases indexLoop_spec vm.Code 0 (fun _ => none) t with ⟨_, h2⟩ | ⟨k, ins1, hk, hi1, hl, _⟩
    · exact absurd hit (h2 i hi)
    · have hmap : vm.Index2PC t = some k := by rw [hload, hl]; simp
      exact ⟨k, ins1, hmap, by rw [hex, hmap], hk, hi1⟩

/-- C7 at concrete machines: a jump to the absent index 7 fails, a jump to the
index 9 reaches the instruction that carries it. -/
theorem C7_jump_absolute_witness :
    (∀ fuel, VM.Run exampleLib (fuel + 1) (NewVM [⟨0, "JUMP_ABSOLUTE", "7"⟩, ⟨1, "END", ""⟩]) =
      some (.error (.unknownJumpTarget 7) (NewVM [⟨0, "JUMP_ABSOLUTE", "7"⟩, ⟨1, "END", ""⟩]))) ∧
    (∃ pc target,
      (NewVM [⟨3, "JUMP_ABSOLUTE", "9"⟩, ⟨5, "LOAD_CONST", "1"⟩, ⟨9, "END", ""⟩]).Index2PC 9 =
        some pc ∧
      step exampleLib (NewVM [⟨3, "JUMP_ABSOLUTE", "9"⟩, ⟨5, "LOAD_CONST", "1"⟩, ⟨9, "END", ""⟩]) =
        .next { NewVM [⟨3, "JUMP_ABSOLUTE", "9"⟩, ⟨5, "LOAD_CONST", "1"⟩, ⟨9, "END", ""⟩] with
                  PC := pc } ∧
      [(⟨3, "JUMP_ABSOLUTE", "9"⟩ : Instr), ⟨5, "LOAD_CONST", "1"⟩, ⟨9, "END", ""⟩][pc]? =
        some target ∧ target.Index = 9) :=
  ⟨(C7_jump_absolute exampleLib (NewVM [⟨0, "JUMP_ABSOLUTE", "7"⟩, ⟨1, "END", ""⟩])
      ⟨0, "JUMP_ABSOLUTE", "7"⟩ 7 rfl rfl (by decide) (by decide)).1 (by decide),
   (C7_jump_absolute exampleLib
      (NewVM [⟨3, "JUMP_ABSOLUTE", "9"⟩, ⟨5, "LOAD_CONST", "1"⟩, ⟨9, "END", ""⟩])
      ⟨3, "JUMP_ABSOLUTE", "9"⟩ 9 rfl rfl (by decide) (by decide)).2
      ⟨⟨9, "END", ""⟩, by decide, rfl⟩⟩

/-! ## C8: JUMP_IF_TRUE and JUMP_IF_FALSE -/

theorem toUpper_of_isSpace (c : Char) (h : unicode.IsSpace c = true) :
    unicode.ToUpper c = c := by
  simp only [unicode.IsSpace, decide_eq_true_eq] at h
  have h1 : c.toNat ≠ 0x131 := by omega
  have h2 : c.toNat ≠ 0x17F := by omega
  have h3 : ¬ (0x61 ≤ c.toNat ∧ c.toNat ≤ 0x7A) := by omega
  simp only [unicode.ToUpper, if_neg h1, if_neg h2, if_neg h3]

theorem dropWhile_eq_self_of_all {α : Type} (p : α → Bool) (l : List α)
    (h : ∀ x ∈ l, p x = false) : l.dropWhile p = l := by
  cases l with
  | nil => rfl
  | cons a t => simp [List.dropWhile, h a (List.mem_cons_self a t)]

/-- A text whose upper case holds no white space is not changed by
`strings.TrimSpace`. -/
theorem trimSpace_of_toUpper (s kw : String) (h : strings.ToUpper s = kw)
    (hk : ∀ c ∈ kw.data, unicode.IsSpace c = false) : strings.TrimSpace s = s := by
  have hs : ∀ c ∈ s.data, unicode.IsSpace c = false := by
    intro c hc
    by_contra hsp
    have hsp1 : unicode.IsSpace c = true := by simpa using hsp
    have hmem : unicode.ToUpper c ∈ kw.data := by
      rw [← h]
      exact List.mem_map_of_mem _ hc
    rw [toUpper_of_isSpace c hsp1] at hmem
    rw [hk c hmem] at hsp1
    cases hsp1
  unfold strings.TrimSpace
  rw [dropWhile_eq_self_of_all _ _ hs,
    dropWhile_eq_self_of_all _ _ (fun x hx => hs x (List.mem_reverse.mp hx)),
    List.reverse_reverse]

/-- C8. For an instruction whose opcode text is `JUMP_IF_TRUE` or
`JUMP_IF_FALSE` up to letter case, with an argument that reads as the integer
`target`, on a stack `rest ++ [v]` whose top `v` coerces to the Boolean `c` (a
Boolean is itself, an Integer or a Float is true when it is not zero): the
instruction pops `v` and nothing else; when `c` matches the polarity of the
opcode it sets the program counter to the position mapped from `target` (and
fails with the unknown-jump-target error when there is none); when `c` does not
match, it advances the program counter by one, whether or not `target` is an
index of the program. -/
theorem C8_jump_if (lib : Lib) (vm : VM) (ins : Instr) (target : Int) (rest : List Value)
    (v : Value) (c : Bool)
    (hop : strings.ToUpper ins.Op = "JUMP_IF_TRUE" ∨ strings.ToUpper ins.Op = "JUMP_IF_FALSE")
    (harg : strconv.Atoi (strings.TrimSpace ins.Arg) = some target)
    (hs : vm.Stack = rest ++ [v]) (hv : v.truth = some c) :
    (((strings.ToUpper ins.Op = "JUMP_IF_TRUE" ∧ c = true) ∨
        (strings.ToUpper ins.Op = "JUMP_IF_FALSE" ∧ c = false)) →
      (∀ pc, vm.Index2PC target = some pc →
        exec lib vm ins = .next { vm with Stack := rest, PC := pc }) ∧
      (vm.Index2PC target = none →
        exec lib vm ins = .fail (.unknownJumpTarget target) { vm with Stack := rest })) ∧
    (¬ ((strings.ToUpper ins.Op = "JUMP_IF_TRUE" ∧ c = true) ∨
        (strings.ToUpper ins.Op = "JUMP_IF_FALSE" ∧ c = false)) →
      exec lib vm ins = .next { vm with Stack := rest, PC := vm.PC + 1 }) := by
  have htrim : strings.TrimSpace ins.Op = ins.Op := by
    rcases hop with h | h
    · exact trimSpace_of_toUpper _ _ h (by decide)
    · exact trimSpace_of_toUpper _ _ h (by decide)
  have hup : ins.opcode = strings.ToUpper ins.Op := by
    unfold Instr.opcode
    rw [htrim]
  have hd : exec lib vm ins = execJumpIf vm ins := by
    rcases hop with h | h <;> simp [exec, hup, h]
  have hc : asBool v = .ok c := by rw [asBool_truth, hv]
  rw [hd]
  rcases hop with h | h <;> cases c <;>
    simp [execJumpIf, harg, pop_concat vm rest v hs, hc, h, VM.advance] <;>
    exact ⟨fun pc hpc => by simp [hpc], fun hn => by simp [hn]⟩

/-- C8 at concrete machines: `JUMP_IF_FALSE 99` on a true condition falls
through although no instruction has index 99, and `jump_if_true 0` on a true
condition jumps to position 0. -/
theorem C8_jump_if_witness :
    exec exampleLib { NewVM [⟨0, "JUMP_IF_FALSE", "99"⟩] with Stack := [VInt 4, VInt 1] }
        ⟨0, "JUMP_IF_FALSE", "99"⟩ =
      .next { NewVM [⟨0, "JUMP_IF_FALSE", "99"⟩] with Stack := [VInt 4], PC := 1 } ∧
    exec exampleLib { NewVM [⟨0, "jump_if_true", "0"⟩] with Stack := [VInt 4, VInt 1], PC := 5 }
        ⟨0, "jump_if_true", "0"⟩ =
      .next { NewVM [⟨0, "jump_if_true", "0"⟩] with Stack := [VInt 4], PC := 0 } :=
  ⟨(C8_jump_if exampleLib { NewVM [⟨0, "JUMP_IF_FALSE", "99"⟩] with Stack := [VInt 4, VInt 1] }
      ⟨0, "JUMP_IF_FALSE", "99"⟩ 99 [VInt 4] (VInt 1) true (Or.inr (by decide))
      (by decide) rfl (by decide)).2 (by decide),
   ((C8_jump_if exampleLib
      { NewVM [⟨0, "jump_if_true", "0"⟩] with Stack := [VInt 4, VInt 1], PC := 5 }
      ⟨0, "jump_if_true", "0"⟩ 0 [VInt 4] (VInt 1) true (Or.inl (by decide))
      (by decide) rfl (by decide)).1 (Or.inl ⟨by decide, rfl⟩)).1 0 rfl⟩

/-! ## C9: stack underflow -/

theorem vm_stack_nil (vm : VM) (h : vm.Stack = []) : { vm with Stack := [] } = vm := by
  cases vm
  simp_all

theorem pop_underflow (vm : VM) (h : vm.Stack.length < 1) :
    vm.pop = (.error .stackUnderflow, { vm with Stack := [] }) := by
  have h0 : vm.Stack = [] := List.length_eq_zero.mp (by omega)
  rw [vm_stack_nil vm h0]
  exact pop_nil vm h0

theorem pop2_underflow (vm : VM) (h : vm.Stack.length < 2) :
    vm.pop2 = (.error .stackUnderflow, { vm with Stack := [] }) := by
  rcases List.eq_nil_or_concat vm.Stack with h0 | ⟨front, v, hv⟩
  · simp [VM.pop2, pop_nil vm h0, vm_stack_nil vm h0]
  · rw [List.concat_eq_append] at hv
    have hf : front = [] := by
      rw [hv] at h
      simp at h
      exact List.length_eq_zero.mp (by omega)
    subst hf
    simp [VM.pop2, pop_concat vm [] v hv, pop_nil { vm with Stack := [] } rfl]

theorem popArgs_underflow (n : Nat) : ∀ (vm : VM) (acc : List Value), vm.Stack.length < n →
    popArgs n vm acc = (.error .stackUnderflow, { vm with Stack := [] }) := by
  induction n with
  | zero => intro vm acc h; omega
  | succ n ih =>
    intro vm acc h
    rcases List.eq_nil_or_concat vm.Stack with h0 | ⟨front, v, hv⟩
    · simp [popArgs, pop_nil vm h0, vm_stack_nil vm h0]
    · rw [List.concat_eq_append] at hv
      have hl : front.length < n := by
        rw [hv] at h
        simp at h
        omega
      rw [popArgs, pop_concat vm front v hv]
      simp only []
      rw [ih { vm with Stack := front } (v :: acc) hl]

theorem pop3_underflow (vm : VM) (h : vm.Stack.length < 3) :
    execStoreSubscr vm = .fail .stackUnderflow { vm with Stack := [] } := by
  by_cases h2 : vm.Stack.length < 2
  · simp [execStoreSubscr, pop2_underflow vm h2]
  · -- exactly two values
    have hlen : vm.Stack.length = 2 := by omega
    obtain ⟨x, y, hxy⟩ : ∃ x y, vm.Stack = [] ++ [x, y] := by
      match hs : vm.Stack, hlen with
      | [x, y], _ => exact ⟨x, y, rfl⟩
    simp [execStoreSubscr, pop2_concat vm [] x y hxy, pop_nil { vm with Stack := [] } rfl]

theorem call_underflow (lib : Lib) (vm : VM) (ins : Instr) (n : Int)
    (harg : strconv.Atoi (strings.TrimSpace ins.Arg) = some n) (hfit : makePanics n = false)
    (h : vm.Stack.length < n.toNat + 1) :
    execCallFunction lib vm ins = .fail .stackUnderflow { vm with Stack := [] } := by
  by_cases h2 : vm.Stack.length < n.toNat
  · simp [execCallFunction, harg, hfit, popArgs_underflow n.toNat vm [] h2]
  · have hlen : vm.Stack.length = n.toNat := by omega
    have hs : vm.Stack = [] ++ vm.Stack := by simp
    simp [execCallFunction, harg, hfit, popArgs_concat n.toNat vm [] vm.Stack [] hs hlen,
      pop_nil { vm with Stack := [] } rfl]

/-- Stack underflow within the limit of one allocation.  A pop on the empty
stack returns the stack-underflow error and leaves the stack empty; and an
instruction executed on a stack that holds fewer values than the `k` that
`operandsConsumed` lists for it, where a slice of `k` values is within the
limit of one allocation (so that `make` does not panic on the count of a
`BUILD_LIST` or `CALL_FUNCTION`), fails with the stack-underflow error (the
stack is left empty), which `Run` then returns. -/
theorem stack_underflow (lib : Lib) (vm : VM) (ins : Instr) (k : Nat) :
    (vm.Stack = [] → (vm.pop).1 = .error .stackUnderflow ∧ (vm.pop).2.Stack = []) ∧
    (operandsConsumed ins = some k → vm.Stack.length < k → k * sizeofValue ≤ maxAlloc →
      exec lib vm ins = .fail .stackUnderflow { vm with Stack := [] } ∧
      (vm.Code[vm.PC]? = some ins →
        ∀ fuel, VM.Run lib (fuel + 1) vm =
          some (.error .stackUnderflow { vm with Stack := [] }))) := by
  refine ⟨fun h0 => by simp [pop_nil vm h0, h0], fun hk hlen hmem => ?_⟩
  have hex : exec lib vm ins = .fail .stackUnderflow { vm with Stack := [] } := by
    unfold operandsConsumed at hk
    simp only [] at hk
    split at hk
    · rename_i hop
      have hk1 : k = 1 := by simpa using hk.symm
      subst hk1
      simp [exec, hop, pop_underflow vm hlen]
    · split at hk
      · rename_i hop
        have hk1 : k = 2 := by simpa using hk.symm
        subst hk1
        have hp := pop2_underflow vm hlen
        rcases hop with hop | hop | hop | hop | hop | hop | hop | hop | hop | hop <;>
          simp [exec, hop, hp, execArith, execBinarySubscr]
      · split at hk
        · rename_i hop
          have hk1 : k = 3 := by simpa using hk.symm
          subst hk1
          simp [exec, hop, pop3_underflow vm hlen]
        · split at hk
          · rename_i hop
            cases harg : strconv.Atoi (strings.TrimSpace ins.Arg) with
            | none => simp [harg] at hk
            | some n =>
              simp only [harg, Option.some.injEq] at hk
              subst hk
              rcases hop with hop | hop <;>
                simp [exec, hop, execJumpIf, harg, pop_underflow vm hlen]
          · split at hk
            · rename_i hop
              cases harg : strconv.Atoi (strings.TrimSpace ins.Arg) with
              | none => simp [harg] at hk
              | some n =>
                simp only [harg] at hk
                by_cases hn : 0 ≤ n
                · simp only [hn, if_true, Option.some.injEq] at hk
                  subst hk
                  have hfit : makePanics n = false := makePanics_toNat n hn hmem
                  simp [exec, hop, execBuildList, harg, hfit,
                    popArgs_underflow n.toNat vm [] hlen]
                · simp [hn] at hk
            · split at hk
              · rename_i hop
                cases harg : strconv.Atoi (strings.TrimSpace ins.Arg) with
                | none => simp [harg] at hk
                | some n =>
                  simp only [harg] at hk
                  by_cases hn : 0 ≤ n
                  · simp only [hn, if_true, Option.some.injEq] at hk
                    subst hk
                    have hfit : makePanics n = false :=
                      makePanics_toNat n hn
                        (le_trans (Nat.mul_le_mul_right _ (Nat.le_succ _)) hmem)
                    simp [exec, hop, call_underflow lib vm ins n harg hfit hlen]
                  · simp [hn] at hk
              · simp at hk
  refine ⟨hex, fun hf fuel => ?_⟩
  simp [VM.Run, step_fetch lib vm ins hf, hex]

/-- Stack underflow at concrete machines: `BINARY_ADD` on a stack of one value
and `CALL_FUNCTION 1` on a stack of one value both end `Run` with the
stack-underflow error. -/
theorem stack_underflow_example :
    VM.Run exampleLib 1 { NewVM [⟨0, "BINARY_ADD", ""⟩] with Stack := [VInt 1] } =
      some (.error .stackUnderflow (NewVM [⟨0, "BINARY_ADD", ""⟩])) ∧
    VM.Run exampleLib 1 { NewVM [⟨0, "CALL_FUNCTION", "1"⟩] with Stack := [VStr "x"] } =
      some (.error .stackUnderflow (NewVM [⟨0, "CALL_FUNCTION", "1"⟩])) :=
  ⟨((stack_underflow exampleLib { NewVM [⟨0, "BINARY_ADD", ""⟩] with Stack := [VInt 1] }
      ⟨0, "BINARY_ADD", ""⟩ 2).2 (by decide) (by decide) (by decide)).2 rfl 0,
   ((stack_underflow exampleLib { NewVM [⟨0, "CALL_FUNCTION", "1"⟩] with Stack := [VStr "x"] }
      ⟨0, "CALL_FUNCTION", "1"⟩ 2).2 (by decide) (by decide) (by decide)).2 rfl 0⟩

/-- C9 at the failing inputs: `BUILD_LIST 9223372036854775807` and
`CALL_FUNCTION 4000000000000`, which the loader accepts, are executed on the
empty stack, which holds fewer values than they consume.  `make` panics on the
count before any value is popped: `Run` does not return the stack-underflow
error, the process is aborted. -/
theorem C9_large_count_crashes :
    parseFile ["0", "BUILD_LIST", "9223372036854775807"] =
      .ok [⟨0, "BUILD_LIST", "9223372036854775807"⟩] ∧
    operandsConsumed ⟨0, "BUILD_LIST", "9223372036854775807"⟩ = some 9223372036854775807 ∧
    (NewVM [⟨0, "BUILD_LIST", "9223372036854775807"⟩]).Stack = [] ∧
    VM.Run exampleLib 1 (NewVM [⟨0, "BUILD_LIST", "9223372036854775807"⟩]) =
      some (.crashed (NewVM [⟨0, "BUILD_LIST", "9223372036854775807"⟩])) ∧
    parseFile ["0", "CALL_FUNCTION", "4000000000000"] =
      .ok [⟨0, "CALL_FUNCTION", "4000000000000"⟩] ∧
    operandsConsumed ⟨0, "CALL_FUNCTION", "4000000000000"⟩ = some 4000000000001 ∧
    VM.Run exampleLib 1 (NewVM [⟨0, "CALL_FUNCTION", "4000000000000"⟩]) =
      some (.crashed (NewVM [⟨0, "CALL_FUNCTION", "4000000000000"⟩])) :=
  ⟨by decide, by decide, rfl, rfl, by decide, by decide, rfl⟩

/-! ## C10: CALL_FUNCTION and print -/

theorem ite_some_none {c : Prop} [Decidable c] {x v : Int}
    (h : (if c then some x else none) = some v) : c ∧ x = v := by
  by_cases hc : c
  · rw [if_pos hc] at h
    exact ⟨hc, Option.some.inj h⟩
  · rw [if_neg hc] at h
    cases h

theorem atoi_inIntRange (s : String) (v : Int) (h : strconv.Atoi s = some v) : inIntRange v := by
  unfold strconv.Atoi at h
  dsimp only at h
  split at h
  · cases h
  · split at h
    · cases h
    · split at h
      · obtain ⟨hc, rfl⟩ := ite_some_none h
        exact hc
      · obtain ⟨hc, rfl⟩ := ite_some_none h
        exact hc
theorem parseLoop_index_all (P : Int → Prop) (n : Nat) :
    ∀ (lines : List String) (acc code : List Instr), lines.length ≤ n →
      parseLoop lines acc = .ok code → (∀ ins ∈ acc, P ins.Index) →
      (∀ (l : String) (v : Int), strconv.Atoi l = some v → P v) → ∀ ins ∈ code, P ins.Index := by
  induction n with
  | zero =>
    intro lines acc code hl h hacc _
    have : lines = [] := List.length_eq_zero.mp (by omega)
    subst this
    simp only [parseLoop, Except.ok.injEq] at h
    subst h
    exact hacc
  | succ n ih =>
    intro lines acc code hl h hacc hP
    match lines, hl, h with
    | [], _, h =>
      simp only [parseLoop, Except.ok.injEq] at h
      subst h
      exact hacc
    | line :: rest, hl, h =>
      rw [parseLoop] at h
      cases hat : strconv.Atoi line with
      | none => simp [hat] at h
      | some idx =>
        simp only [hat] at h
        match rest, hl, h with
        | [], _, h => simp at h
        | opLine :: rest2, hl, h =>
          simp only [] at h
          have hacc2 : ∀ arg, ∀ ins ∈ acc ++ [⟨idx, strings.TrimSpace opLine, arg⟩],
              P ins.Index := by
            intro arg ins hin
            rcases List.mem_append.mp hin with h1 | h1
            · exact hacc ins h1
            · simp only [List.mem_singleton] at h1
              subst h1
              exact hP line idx hat
          split at h
          · match rest2, hl, h with
            | [], _, h => simp at h
            | argLine :: rest3, hl, h =>
              simp only [] at h
              split at h
              · cases h
              · exact ih rest3 _ code (by simp at hl ⊢; omega) h (hacc2 _) hP
          · exact ih rest2 _ code (by simp at hl ⊢; omega) h (hacc2 _) hP

/-- C11 as stated fails on the code: the line `-5` parses as an index, and the
loader returns an instruction whose logical index is negative. -/
theorem C11_negative_index_counterexample :
    parseFile ["-5", "END"] = .ok [⟨-5, "END", ""⟩] ∧
    strconv.Atoi "-5" = some (-5) ∧ ¬ ((0 : Int) ≤ -5) := by
  decide

/-- C11, amended. At every turn of the loader's loop, a line in index position
that `strconv.Atoi` does not read as an integer makes the loader fail with the
expected-numeric-index error; in particular a file whose first non-blank line is
such a line fails to load; and every instruction the loader returns carries a
logical index in the range of `int` (which may be negative). -/
theorem C11_index_lines (line : String) (rest : List String) (acc : List Instr) :
    (strconv.Atoi line = none →
      parseLoop (line :: rest) acc = .error (.expectedIndex line)) ∧
    (∀ texts, normalizeLines texts = line :: rest → strconv.Atoi line = none →
      parseFile texts = .error (.expectedIndex line)) ∧
    (∀ texts code, parseFile texts = .ok code → ∀ ins ∈ code, inIntRange ins.Index) := by
  refine ⟨?_, ?_, ?_⟩
  · intro h
    simp [parseLoop, h]
  · intro texts hn h
    simp [parseFile, hn, parseLoop, h]
  · intro texts code h
    exact parseLoop_index_all inIntRange _ _ [] code (le_refl _) h (by simp)
      (fun l v hv => atoi_inIntRange l v hv)

/-- C11 (amended) at a concrete file: the first non-blank line `x1` is not
numeric. -/
theorem C11_index_lines_witness :
    parseLoop ("x1" :: ["END"]) [] = .error (.expectedIndex "x1") ∧
    parseFile ["", "  x1", "END"] = .error (.expectedIndex "x1") :=
  ⟨(C11_index_lines "x1" ["END"] []).1 (by decide),
   (C11_index_lines "x1" ["END"] []).2.1 ["", "  x1", "END"] (by decide) (by decide)⟩

/-! ## C12: argument lines of the loader -/

theorem dropWhile_of_head {α : Type} (p : α → Bool) (l : List α)
    (h : ∀ c, l.head? = some c → p c = false) : l.dropWhile p = l := by
  cases l with
  | nil => rfl
  | cons a t => simp [List.dropWhile, h a rfl]

theorem head_dropWhile {α : Type} (p : α → Bool) (l : List α) :
    ∀ c, (l.dropWhile p).head? = some c → p c = false := by
  intro c hc
  have := List.head?_dropWhile_not p l
  rw [hc] at this
  exact this

/-- A text that neither starts nor ends with white space is not changed by
`strings.TrimSpace`. -/
theorem trimSpace_of_clean (s : String)
    (h1 : ∀ c, s.data.head? = some c → unicode.IsSpace c = false)
    (h2 : ∀ c, s.data.getLast? = some c → unicode.IsSpace c = false) :
    strings.TrimSpace s = s := by
  unfold strings.TrimSpace
  rw [dropWhile_of_head _ _ h1,
    dropWhile_of_head _ s.data.reverse (by rw [List.head?_reverse]; exact h2),
    List.reverse_reverse]

/-- The result of `strings.TrimSpace` neither starts nor ends with white space. -/
theorem trimSpace_clean (s : String) :
    (∀ c, (strings.TrimSpace s).data.head? = some c → unicode.IsSpace c = false) ∧
    (∀ c, (strings.TrimSpace s).data.getLast? = some c → unicode.IsSpace c = false) := by
  unfold strings.TrimSpace
  constructor
  · intro c hc
    simp only [List.head?_reverse] at hc
    obtain ⟨t, ht⟩ := List.dropWhile_suffix (l := (s.data.dropWhile unicode.IsSpace).reverse)
      unicode.IsSpace
    have h3 : ((s.data.dropWhile unicode.IsSpace).reverse).getLast? = some c := by
      rw [← ht, List.getLast?_append, hc]
      rfl
    rw [List.getLast?_reverse] at h3
    exact head_dropWhile _ _ c h3
  · intro c hc
    simp only [List.getLast?_reverse] at hc
    exact head_dropWhile _ _ c hc

theorem replaceTabs_clean (s : String)
    (h1 : ∀ c, s.data.head? = some c → unicode.IsSpace c = false)
    (h2 : ∀ c, s.data.getLast? = some c → unicode.IsSpace c = false) :
    (∀ c, (replaceTabs s).data.head? = some c → unicode.IsSpace c = false) ∧
    (∀ c, (replaceTabs s).data.getLast? = some c → unicode.IsSpace c = false) := by
  have hf : ∀ d : Char, unicode.IsSpace d = false → (if d = '\t' then ' ' else d) = d := by
    intro d hd
    by_cases ht : d = '\t'
    · subst ht
      revert hd
      decide
    · rw [if_neg ht]
  unfold replaceTabs
  constructor
  · intro c hc
    simp only [List.head?_map, Option.map_eq_some'] at hc
    obtain ⟨d, hd, hdc⟩ := hc
    rw [hf d (h1 d hd)] at hdc
    subst hdc
    exact h1 d hd
  · intro c hc
    simp only [List.getLast?_map, Option.map_eq_some'] at hc
    obtain ⟨d, hd, hdc⟩ := hc
    rw [hf d (h2 d hd)] at hdc
    subst hdc
    exact h2 d hd

/-- Every line that the first loop of `parseFile` keeps is non-empty and has no
white space at its ends, so `strings.TrimSpace` leaves it as it is. -/
theorem normalizeLines_trimmed (texts : List String) :
    ∀ l ∈ normalizeLines texts, strings.TrimSpace l = l ∧ l ≠ "" := by
  induction texts with
  | nil => intro l hl; simp [normalizeLines] at hl
  | cons t rest ih =>
    intro l hl
    simp only [normalizeLines] at hl
    split at hl
    · exact ih l hl
    · rename_i hne
      rcases List.mem_cons.mp hl with h | h
      · subst h
        obtain ⟨h1, h2⟩ := trimSpace_clean t
        obtain ⟨h3, h4⟩ := replaceTabs_clean _ h1 h2
        exact ⟨trimSpace_of_clean _ h3 h4, hne⟩
      · exact ih l h

theorem opcodesWithArg_iff (up : String) : opcodesWithArg up = true ↔ up ∈ argumentTakingSet := by
  simp [opcodesWithArg, argumentTakingSet, or_assoc]

theorem isOpcode_iff (s : String) :
    isOpcode s = true ↔ strings.ToUpper (strings.TrimSpace s) ∈ recognizedSet := by
  unfold isOpcode
  dsimp only
  generalize strings.ToUpper (strings.TrimSpace s) = up
  by_cases h0 : up = ""
  · subst h0
    decide
  · rw [if_neg h0]
    simp [recognizedSet, or_assoc]

/-- C12. At every turn of the loader's loop, after an index line that reads as
`idx` and an opcode line: when the opcode, upper-cased, is in the
argument-taking set, the loader fails with the missing-argument error if no line
follows, fails with the expected-argument-found-opcode error if the next line,
trimmed and upper-cased, is a recognized keyword, and otherwise goes on with an
instruction whose argument is that line, trimmed; when the opcode is outside the
set, no line is consumed, the argument is empty and the loader goes on, whatever
the opcode is.  Trimming changes none of the normalized lines. -/
theorem C12_argument_lines (line opLine : String) (rest : List String) (acc : List Instr)
    (idx : Int) (hidx : strconv.Atoi line = some idx) :
    (strings.ToUpper (strings.TrimSpace opLine) ∈ argumentTakingSet →
      (rest = [] → parseLoop (line :: opLine :: rest) acc =
        .error (.missingArgument (strings.TrimSpace opLine) idx)) ∧
      (∀ argLine rest2, rest = argLine :: rest2 →
        (strings.ToUpper (strings.TrimSpace argLine) ∈ recognizedSet →
          parseLoop (line :: opLine :: rest) acc =
            .error (.expectedArgumentFoundOpcode (strings.TrimSpace opLine) idx argLine)) ∧
        (strings.ToUpper (strings.TrimSpace argLine) ∉ recognizedSet →
          parseLoop (line :: opLine :: rest) acc =
            parseLoop rest2
              (acc ++ [⟨idx, strings.TrimSpace opLine, strings.TrimSpace argLine⟩])))) ∧
    (strings.ToUpper (strings.TrimSpace opLine) ∉ argumentTakingSet →
      parseLoop (line :: opLine :: rest) acc =
        parseLoop rest (acc ++ [⟨idx, strings.TrimSpace opLine, ""⟩])) ∧
    (∀ texts, ∀ l ∈ normalizeLines texts, strings.TrimSpace l = l) := by
  refine ⟨?_, ?_, fun texts l hl => (normalizeLines_trimmed texts l hl).1⟩
  · intro hset
    have h1 := (opcodesWithArg_iff _).mpr hset
    refine ⟨?_, ?_⟩
    · intro hr
      subst hr
      simp [parseLoop, hidx, h1]
    · intro argLine rest2 hr
      subst hr
      constructor
      · intro hrec
        have h2 := (isOpcode_iff _).mpr hrec
        simp [parseLoop, hidx, h1, h2]
      · intro hrec
        have h2 : isOpcode argLine = false := by
          cases h : isOpcode argLine
          · rfl
          · exact absurd ((isOpcode_iff _).mp h) hrec
        simp [parseLoop, hidx, h1, h2]
  · intro hset
    have h1 : opcodesWithArg (strings.ToUpper (strings.TrimSpace opLine)) = false := by
      cases h : opcodesWithArg (strings.ToUpper (strings.TrimSpace opLine))
      · rfl
      · exact absurd ((opcodesWithArg_iff _).mp h) hset
    simp [parseLoop, hidx, h1]

/-- C12 at concrete lines: `LOAD_FAST` with no line after it, with the keyword
`end` after it, with the name `x` after it, and the unknown opcode `FOO`. -/
theorem C12_argument_lines_witness :
    parseLoop ["0", "LOAD_FAST"] [] = .error (.missingArgument "LOAD_FAST" 0) ∧
    parseLoop ["0", "load_fast", "end"] [] =
      .error (.expectedArgumentFoundOpcode "load_fast" 0 "end") ∧
    parseLoop ["0", "LOAD_FAST", "x", "1", "END"] [] =
      parseLoop ["1", "END"] [⟨0, "LOAD_FAST", "x"⟩] ∧
    parseLoop ["0", "FOO", "1", "END"] [] = parseLoop ["1", "END"] [⟨0, "FOO", ""⟩] :=
  ⟨((C12_argument_lines "0" "LOAD_FAST" [] [] 0 (by decide)).1 (by decide)).1 rfl,
   (((C12_argument_lines "0" "load_fast" ["end"] [] 0 (by decide)).1 (by decide)).2
      "end" [] rfl).1 (by decide),
   (((C12_argument_lines "0" "LOAD_FAST" ["x", "1", "END"] [] 0 (by decide)).1 (by decide)).2
      "x" ["1", "END"] rfl).2 (by decide),
   (C12_argument_lines "0" "FOO" ["1", "END"] [] 0 (by decide)).2.1 (by decide)⟩

/-! ## C13: BINARY_AND and BINARY_OR -/

/-- C13 as stated fails on the code: with a String or a None operand the
instruction does not fail; the operand counts as false and a Boolean is
pushed. -/
theorem C13_ignored_error_counterexample :
    exec exampleLib { NewVM [] with Stack := [VStr "a", VBool true] } ⟨0, "BINARY_OR", ""⟩ =
      .next { NewVM [] with Stack := [VBool true], PC := 1 } ∧
    asBool (VStr "a") = .error .notConvertibleToBool ∧
    exec exampleLib { NewVM [] with Stack := [VNone, VList 0] } ⟨0, "BINARY_AND", ""⟩ =
      .next { NewVM [] with Stack := [VBool false], PC := 1 } :=
  ⟨rfl, rfl, rfl⟩

/-- C13, amended. For an instruction whose opcode text is `BINARY_AND` or
`BINARY_OR` up to letter case, on a stack `rest ++ [a, b]`: each operand is
coerced to a Boolean by the rule `Value.truth` (a Boolean is itself, an Integer
or a Float is true when it is not zero), an operand of any other kind counts as
false, and the instruction pushes the Boolean `and` (respectively `or`) of the
two in place of the operands; it never fails on the kind of an operand.  The
helper `asBool` returns the Boolean of the rule where there is one and its error
for every other value; that error is the one the instruction discards. -/
theorem C13_and_or (lib : Lib) (vm : VM) (ins : Instr) (rest : List Value) (a b : Value)
    (hop : strings.ToUpper ins.Op = "BINARY_AND" ∨ strings.ToUpper ins.Op = "BINARY_OR")
    (hs : vm.Stack = rest ++ [a, b]) :
    (strings.ToUpper ins.Op = "BINARY_AND" →
      exec lib vm ins = .next { vm with
        Stack := rest ++ [VBool (a.truth.getD false && b.truth.getD false)],
        PC := vm.PC + 1 }) ∧
    (strings.ToUpper ins.Op = "BINARY_OR" →
      exec lib vm ins = .next { vm with
        Stack := rest ++ [VBool (a.truth.getD false || b.truth.getD false)],
        PC := vm.PC + 1 }) ∧
    (∀ (v : Value) (c : Bool), v.truth = some c → asBool v = .ok c) ∧
    (∀ v : Value, v.truth = none → asBool v = .error .notConvertibleToBool) := by
  have htrim : strings.TrimSpace ins.Op = ins.Op := by
    rcases hop with h | h
    · exact trimSpace_of_toUpper _ _ h (by decide)
    · exact trimSpace_of_toUpper _ _ h (by decide)
  have hup : ins.opcode = strings.ToUpper ins.Op := by
    unfold Instr.opcode
    rw [htrim]
  refine ⟨?_, ?_, ?_, ?_⟩
  · intro h
    simp [exec, hup, h, pop2_concat vm rest a b hs, orZero_asBool, VM.push, VM.advance]
  · intro h
    simp [exec, hup, h, pop2_concat vm rest a b hs, orZero_asBool, VM.push, VM.advance]
  · intro v c h
    rw [asBool_truth, h]
  · intro v h
    rw [asBool_truth, h]

/-- C13 (amended) at concrete machines: `2 and False` is `False`, `0 or 2` is
`True`, and `0 or "a"` is `False`, the String counting as false. -/
theorem C13_and_or_witness :
    exec exampleLib { NewVM [] with Stack := [VInt 2, VBool false] } ⟨0, "binary_and", ""⟩ =
      .next { NewVM [] with Stack := [VBool false], PC := 1 } ∧
    exec exampleLib { NewVM [] with Stack := [VInt 0, VInt 2] } ⟨0, "BINARY_OR", ""⟩ =
      .next { NewVM [] with Stack := [VBool true], PC := 1 } ∧
    exec exampleLib { NewVM [] with Stack := [VInt 0, VStr "a"] } ⟨0, "BINARY_OR", ""⟩ =
      .next { NewVM [] with Stack := [VBool false], PC := 1 } :=
  ⟨(C13_and_or exampleLib { NewVM [] with Stack := [VInt 2, VBool false] }
      ⟨0, "binary_and", ""⟩ [] (VInt 2) (VBool false) (Or.inl (by decide)) rfl).1 (by decide),
   (C13_and_or exampleLib { NewVM [] with Stack := [VInt 0, VInt 2] }
      ⟨0, "BINARY_OR", ""⟩ [] (VInt 0) (VInt 2) (Or.inr (by decide)) rfl).2.1 (by decide),
   (C13_and_or exampleLib { NewVM [] with Stack := [VInt 0, VStr "a"] }
      ⟨0, "BINARY_OR", ""⟩ [] (VInt 0) (VStr "a") (Or.inr (by decide)) rfl).2.1 (by decide)⟩

/-! ## C14: STORE_SUBSCR then BINARY_SUBSCR -/

theorem slice_set_self (heap : Heap) (addr : Nat) (arr : List Value) (h : addr < heap.length) :
    Heap.slice (heap.set addr arr) addr = arr := by
  simp [Heap.slice, List.getD_eq_getElem?_getD, List.getElem?_set, h]

theorem slice_nonempty_valid (heap : Heap) (addr : Nat) (h : 0 < (Heap.slice heap addr).length) :
    addr < heap.length := by
  by_contra hn
  have : Heap.slice heap addr = [] := by
    simp [Heap.slice, List.getD_eq_getElem?_getD, List.getElem?_eq_none (not_lt.mp hn)]
  rw [this] at h
  simp at h

/-- C14. `STORE_SUBSCR` on the stack `rest ++ [idx, list, v]`, where `idx`
coerces to an integer `i` within the bounds of the list, succeeds and writes `v`
at position `i` of the array of the list.  In every later machine with that
heap, `BINARY_SUBSCR` on the same list reference and an index that coerces to
`j` pushes `v` when `j = i`, and the element the list had at `j` before the store
when `j` is another position within the bounds.  A variable that held the list
before the store yields the same reference after it. -/
theorem C14_store_then_read (lib : Lib) (vm : VM) (insS : Instr) (rest : List Value)
    (idx v : Value) (addr : Nat) (i : Int)
    (hopS : insS.opcode = "STORE_SUBSCR")
    (hs : vm.Stack = rest ++ [idx, VList addr, v])
    (hi : asInt idx = .ok i) (h0 : 0 ≤ i) (hlen : i < (vm.heap.slice addr).length) :
    exec lib vm insS =
      .next { vm with Stack := rest,
                      heap := vm.heap.set addr ((vm.heap.slice addr).set i.toNat v),
                      PC := vm.PC + 1 } ∧
    (∀ (vm2 : VM) (insB : Instr) (rest2 : List Value) (idx2 : Value) (j : Int),
      insB.opcode = "BINARY_SUBSCR" →
      vm2.heap = vm.heap.set addr ((vm.heap.slice addr).set i.toNat v) →
      vm2.Stack = rest2 ++ [VList addr, idx2] →
      asInt idx2 = .ok j → 0 ≤ j → j < (vm.heap.slice addr).length →
      (j = i →
        exec lib vm2 insB = .next { vm2 with Stack := rest2 ++ [v], PC := vm2.PC + 1 }) ∧
      (j ≠ i →
        exec lib vm2 insB =
          .next { vm2 with Stack := rest2 ++ [(vm.heap.slice addr).getD j.toNat VNone],
                           PC := vm2.PC + 1 })) ∧
    (∀ (x : String) (insL : Instr) (st : List Value) (pc : Nat),
      vm.Env.Vars x = some (VList addr) → insL.opcode = "LOAD_FAST" →
      strings.TrimSpace insL.Arg = x →
      exec lib { vm with Stack := st,
                         heap := vm.heap.set addr ((vm.heap.slice addr).set i.toNat v),
                         PC := pc } insL =
        .next { vm with Stack := st ++ [VList addr],
                        heap := vm.heap.set addr ((vm.heap.slice addr).set i.toNat v),
                        PC := pc + 1 }) := by
  have haddr : addr < vm.heap.length := slice_nonempty_valid vm.heap addr (by omega)
  have hs1 : vm.Stack = (rest ++ [idx]) ++ [VList addr, v] := by simp [hs]
  have hcond : ¬ (i < 0 ∨ i ≥ ((vm.heap.slice addr).length : Int)) := by omega
  refine ⟨?_, ?_, ?_⟩
  · simp only [exec, hopS]
    simp [execStoreSubscr, pop2_concat vm (rest ++ [idx]) (VList addr) v hs1,
      pop_concat { vm with Stack := rest ++ [idx] } rest idx rfl, hi, hcond, VM.advance]
  · intro vm2 insB rest2 idx2 j hopB hheap hs2 hj hj0 hjlen
    have hslice : vm2.heap.slice addr = (vm.heap.slice addr).set i.toNat v := by
      rw [hheap]
      exact slice_set_self vm.heap addr _ haddr
    have hcond2 : ¬ (j < 0 ∨ j ≥ (((vm.heap.slice addr).set i.toNat v).length : Int)) := by
      rw [List.length_set]
      omega
    have hex : exec lib vm2 insB =
        .next { vm2 with
          Stack := rest2 ++ [((vm.heap.slice addr).set i.toNat v).getD j.toNat VNone],
          PC := vm2.PC + 1 } := by
      simp only [exec, hopB]
      simp [execBinarySubscr, pop2_concat vm2 rest2 (VList addr) idx2 hs2, hj, hslice, hcond2,
        hj0, hjlen, VM.push, VM.advance]
    constructor
    · intro hji
      subst hji
      rw [hex]
      have : ((vm.heap.slice addr).set j.toNat v).getD j.toNat VNone = v := by
        have hlt : j.toNat < (vm.heap.slice addr).length := by omega
        simp [List.getD_eq_getElem?_getD, List.getElem?_set, hlt]
      rw [this]
    · intro hji
      rw [hex]
      have : ((vm.heap.slice addr).set i.toNat v).getD j.toNat VNone =
          (vm.heap.slice addr).getD j.toNat VNone := by
        have hne : i.toNat ≠ j.toNat := by omega
        simp [List.getD_eq_getElem?_getD, List.getElem?_set_ne hne]
      rw [this]
  · intro x insL st pc hx hopL hargL
    simp [exec, hopL, hargL, hx, VM.push, VM.advance]

/-- C14 at concrete machines: storing `new` at position 1 of the list
`[10, 20, 30]`, then reading positions 1 and 2; and the same round trip through
a variable, run as a whole program from `NewVM`. -/
theorem C14_store_then_read_witness :
    exec exampleLib
        { NewVM [] with Stack := [VInt 1, VList 0, VStr "new"],
                        heap := [[VInt 10, VInt 20, VInt 30]] }
        ⟨0, "STORE_SUBSCR", ""⟩ =
      .next { NewVM [] with heap := [[VInt 10, VStr "new", VInt 30]], PC := 1 } ∧
    exec exampleLib
        { NewVM [] with Stack := [VList 0, VInt 1], heap := [[VInt 10, VStr "new", VInt 30]] }
        ⟨0, "BINARY_SUBSCR", ""⟩ =
      .next { NewVM [] with Stack := [VStr "new"], heap := [[VInt 10, VStr "new", VInt 30]],
                            PC := 1 } ∧
    exec exampleLib
        { NewVM [] with Stack := [VList 0, VInt 2], heap := [[VInt 10, VStr "new", VInt 30]] }
        ⟨0, "BINARY_SUBSCR", ""⟩ =
      .next { NewVM [] with Stack := [VInt 30], heap := [[VInt 10, VStr "new", VInt 30]],
                            PC := 1 } ∧
    (match VM.Run exampleLib 12 (NewVM
        [⟨0, "LOAD_CONST", "10"⟩, ⟨1, "LOAD_CONST", "20"⟩, ⟨2, "BUILD_LIST", "2"⟩,
         ⟨3, "STORE_FAST", "x"⟩, ⟨4, "LOAD_CONST", "1"⟩, ⟨5, "LOAD_FAST", "x"⟩,
         ⟨6, "LOAD_CONST", "99"⟩, ⟨7, "STORE_SUBSCR", ""⟩, ⟨8, "LOAD_FAST", "x"⟩,
         ⟨9, "LOAD_CONST", "1"⟩, ⟨10, "BINARY_SUBSCR", ""⟩, ⟨11, "END", ""⟩]) with
      | some (.ok vm) => vm.Stack
      | _ => []) = [VInt 99] := by
  have h := C14_store_then_read exampleLib
    { NewVM [] with Stack := [VInt 1, VList 0, VStr "new"],
                    heap := [[VInt 10, VInt 20, VInt 30]] }
    ⟨0, "STORE_SUBSCR", ""⟩ [] (VInt 1) (VStr "new") 0 1 (by decide) rfl rfl (by decide)
    (by decide)
  have h1 := (h.2.1
    { NewVM [] with Stack := [VList 0, VInt 1], heap := [[VInt 10, VStr "new", VInt 30]] }
    ⟨0, "BINARY_SUBSCR", ""⟩ [] (VInt 1) 1 (by decide) rfl rfl rfl (by decide) (by decide)).1 rfl
  have h2 := (h.2.1
    { NewVM [] with Stack := [VList 0, VInt 2], heap := [[VInt 10, VStr "new", VInt 30]] }
    ⟨0, "BINARY_SUBSCR", ""⟩ [] (VInt 2) 2 (by decide) rfl rfl rfl (by decide) (by decide)).2
    (by decide)
  exact ⟨h.1, h1, h2, rfl⟩

/-! ## C15: END and unrecognized opcodes -/

theorem run_of_runSteps (lib : Lib) (n : Nat) : ∀ (vm0 vm : VM),
    runSteps lib n vm0 = some vm → ∀ k, VM.Run lib (n + k) vm0 = VM.Run lib k vm := by
  induction n with
  | zero =>
    intro vm0 vm h k
    simp only [runSteps, Option.some.injEq] at h
    subst h
    simp
  | succ n ih =>
    intro vm0 vm h k
    rw [runSteps] at h
    have hk : n + 1 + k = (n + k) + 1 := by omega
    rw [hk, VM.Run]
    cases ho : step lib vm0 with
    | next vm1 =>
      rw [ho] at h
      exact ih vm1 vm h k
    | halt vm1 => rw [ho] at h; cases h
    | fail e vm1 => rw [ho] at h; cases h
    | crash vm1 => rw [ho] at h; cases h

/-- C15. When `n` turns of the loop lead from `vm0` to a machine `vm` whose
next instruction is `END`, `Run` returns success with exactly that machine
(stack and environment as they were on reaching `END`), whatever the rest of
the program holds; when the next instruction of `vm` has an opcode outside the
recognized set, `Run` returns the unsupported-opcode error. -/
theorem C15_end_and_unknown (lib : Lib) (vm0 vm : VM) (ins : Instr) (n : Nat)
    (hreach : runSteps lib n vm0 = some vm) (hf : vm.Code[vm.PC]? = some ins) :
    (ins.opcode = "END" → ∀ fuel, VM.Run lib (n + (fuel + 1)) vm0 = some (.ok vm)) ∧
    (ins.opcode ∉ recognizedSet →
      ∀ fuel, VM.Run lib (n + (fuel + 1)) vm0 =
        some (.error (.unsupportedOpcode ins.Op) vm)) := by
  constructor
  · intro hop fuel
    rw [run_of_runSteps lib n vm0 vm hreach]
    simp [VM.Run, step_fetch lib vm ins hf, exec, hop]
  · intro hop fuel
    rw [run_of_runSteps lib n vm0 vm hreach]
    simp only [recognizedSet, List.mem_cons, List.mem_singleton, not_or, List.not_mem_nil,
      or_false] at hop
    simp [VM.Run, step_fetch lib vm ins hf, exec, hop]

/-- C15 at concrete programs: an unknown opcode after `END` is never executed;
an unknown opcode that is reached makes `Run` fail. -/
theorem C15_end_and_unknown_witness :
    VM.Run exampleLib 2 (NewVM [⟨0, "LOAD_CONST", "1"⟩, ⟨1, "END", ""⟩, ⟨2, "BOGUS", ""⟩]) =
      some (.ok { NewVM [⟨0, "LOAD_CONST", "1"⟩, ⟨1, "END", ""⟩, ⟨2, "BOGUS", ""⟩] with
                    Stack := [VInt 1], PC := 1 }) ∧
    VM.Run exampleLib 1 (NewVM [⟨0, "BOGUS", ""⟩, ⟨1, "END", ""⟩]) =
      some (.error (.unsupportedOpcode "BOGUS") (NewVM [⟨0, "BOGUS", ""⟩, ⟨1, "END", ""⟩])) :=
  ⟨(C15_end_and_unknown exampleLib
      (NewVM [⟨0, "LOAD_CONST", "1"⟩, ⟨1, "END", ""⟩, ⟨2, "BOGUS", ""⟩])
      { NewVM [⟨0, "LOAD_CONST", "1"⟩, ⟨1, "END", ""⟩, ⟨2, "BOGUS", ""⟩] with
          Stack := [VInt 1], PC := 1 }
      ⟨1, "END", ""⟩ 1 rfl rfl).1 (by decide) 0,
   (C15_end_and_unknown exampleLib (NewVM [⟨0, "BOGUS", ""⟩, ⟨1, "END", ""⟩])
      (NewVM [⟨0, "BOGUS", ""⟩, ⟨1, "END", ""⟩]) ⟨0, "BOGUS", ""⟩ 0 rfl rfl).2 (by decide) 0⟩

/-! ## C16: Char literals -/

/-- C16 at the failing inputs: the argument `'ab'`, and the argument made of
three single quotes, make `LOAD_CONST` push a Char of two characters and a Char
of no character. -/
theorem C16_char_of_two_characters :
    exec exampleLib (NewVM []) ⟨0, "LOAD_CONST", "'ab'"⟩ =
      .next { NewVM [] with Stack := [VChar "ab"], PC := 1 } ∧
    "ab".length = 2 ∧
    exec exampleLib (NewVM []) ⟨0, "LOAD_CONST", "'''"⟩ =
      .next { NewVM [] with Stack := [VChar ""], PC := 1 } :=
  ⟨rfl, rfl, rfl⟩

/-! ## C17: String literals -/

theorem trim_cons {α : Type} (p : α → Bool) (q : α) (l : List α) (hq : p q = true) :
    (((q :: l).dropWhile p).reverse.dropWhile p).reverse =
      ((l.dropWhile p).reverse.dropWhile p).reverse := by
  rw [List.dropWhile_cons_of_pos hq]

theorem trim_concat {α : Type} (p : α → Bool) (q : α) (hq : p q = true) : ∀ l : List α,
    (((l ++ [q]).dropWhile p).reverse.dropWhile p).reverse =
      ((l.dropWhile p).reverse.dropWhile p).reverse := by
  intro l
  induction l with
  | nil => simp [List.dropWhile, hq]
  | cons a t ih =>
    by_cases ha : p a = true
    · rw [List.cons_append, List.dropWhile_cons_of_pos ha, List.dropWhile_cons_of_pos ha]
      exact ih
    · rw [List.cons_append, List.dropWhile_cons_of_neg ha, List.dropWhile_cons_of_neg ha]
      rw [← List.cons_append, List.reverse_append]
      simp only [List.reverse_cons, List.reverse_nil, List.nil_append, List.singleton_append]
      rw [List.dropWhile_cons_of_pos hq]

/-- Stripping the cut set from a text between two runes of the cut set strips
it from the text alone. -/
theorem trim_between (s cutset : String) (q1 q2 : Char)
    (h1 : cutset.data.contains q1 = true) (h2 : cutset.data.contains q2 = true) :
    strings.Trim (String.mk (q1 :: (s.data ++ [q2]))) cutset = strings.Trim s cutset := by
  unfold strings.Trim
  simp only
  rw [trim_cons _ q1 _ h1, trim_concat _ q2 h2]

theorem trim_of_clean (s cutset : String)
    (h1 : ∀ c, s.data.head? = some c → cutset.data.contains c = false)
    (h2 : ∀ c, s.data.getLast? = some c → cutset.data.contains c = false) :
    strings.Trim s cutset = s := by
  unfold strings.Trim
  rw [dropWhile_of_head _ _ h1,
    dropWhile_of_head _ s.data.reverse (by rw [List.head?_reverse]; exact h2),
    List.reverse_reverse]

theorem loadConst_quoted (lib : Lib) (vm : VM) (ins : Instr) (s : String) (q1 q2 : Char)
    (hop : ins.opcode = "LOAD_CONST")
    (harg : ins.Arg = String.mk (q1 :: (s.data ++ [q2])))
    (hq : (q1 = '"' ∧ q2 = '"') ∨ (q1 = '“' ∧ q2 = '”')) :
    exec lib vm ins =
      .next { vm with Stack := vm.Stack ++ [VStr (strings.Trim s "\"“”")], PC := vm.PC + 1 } := by
  have hsp1 : unicode.IsSpace q1 = false := by
    rcases hq with ⟨h, _⟩ | ⟨h, _⟩ <;> subst h <;> decide
  have hsp2 : unicode.IsSpace q2 = false := by
    rcases hq with ⟨_, h⟩ | ⟨_, h⟩ <;> subst h <;> decide
  have hc1 : "\"“”".data.contains q1 = true := by
    rcases hq with ⟨h, _⟩ | ⟨h, _⟩ <;> subst h <;> decide
  have hc2 : "\"“”".data.contains q2 = true := by
    rcases hq with ⟨_, h⟩ | ⟨_, h⟩ <;> subst h <;> decide
  have htrim : strings.TrimSpace ins.Arg = ins.Arg := by
    apply trimSpace_of_clean
    · intro c hc
      rw [harg] at hc
      simp only [List.head?_cons, Option.some.injEq] at hc
      subst hc
      exact hsp1
    · intro c hc
      rw [harg] at hc
      rw [← List.cons_append, List.getLast?_append] at hc
      simp only [List.getLast?_singleton, Option.or_some, Option.some.injEq] at hc
      subst hc
      exact hsp2
  have hne : ins.Arg ≠ "" := by
    rw [harg]
    intro h
    have := congrArg String.data h
    simp at this
  have hsuf : ∀ q : Char, strings.HasSuffix ins.Arg (String.mk [q]) = decide (q = q2) := by
    intro q
    unfold strings.HasSuffix
    rw [harg]
    simp only [List.isSuffixOf, ← List.cons_append, List.reverse_append,
      List.reverse_cons, List.reverse_nil, List.nil_append, List.singleton_append,
      List.isPrefixOf]
    by_cases h : q = q2 <;> simp [h]
  have hpre : ∀ q : Char, strings.HasPrefix ins.Arg (String.mk [q]) = decide (q = q1) := by
    intro q
    unfold strings.HasPrefix
    rw [harg]
    simp only [List.isPrefixOf]
    by_cases h : q = q1 <;> simp [h]
  have hcond : ((strings.HasPrefix ins.Arg "\"" && strings.HasSuffix ins.Arg "\"") ||
      (strings.HasPrefix ins.Arg "“" && strings.HasSuffix ins.Arg "”")) = true := by
    have e1 : ("\"" : String) = String.mk ['"'] := rfl
    have e2 : ("“" : String) = String.mk ['“'] := rfl
    have e3 : ("”" : String) = String.mk ['”'] := rfl
    rw [e1, e2, e3, hpre, hpre, hsuf, hsuf]
    rcases hq with ⟨h1, h2⟩ | ⟨h1, h2⟩ <;> subst h1 <;> subst h2 <;> decide
  have hT : strings.Trim ins.Arg "\"“”" = strings.Trim s "\"“”" := by
    rw [harg]
    exact trim_between s _ q1 q2 hc1 hc2
  simp only [exec, hop, if_true, execLoadConst, htrim, if_neg hne, hcond, hT, VM.push,
    VM.advance]

/-- C17 as stated fails on the code: for the text `a"` between double quotes the
String pushed is `a`. -/
theorem C17_inner_quote_counterexample :
    exec exampleLib (NewVM []) ⟨0, "LOAD_CONST", "\"" ++ "a\"" ++ "\""⟩ =
      .next { NewVM [] with Stack := [VStr "a"], PC := 1 } ∧ "a" ≠ "a\"" :=
  ⟨rfl, by decide⟩

/-- C17, amended. `LOAD_CONST` whose argument is a double quote, `s`, a double
quote, or an opening smart quote, `s`, a closing smart quote, pushes the String
whose content is `s` without its leading and trailing quote characters (straight
or smart); that content is exactly `s` when `s` neither starts nor ends with
such a character. -/
theorem C17_quoted_string (lib : Lib) (vm : VM) (ins : Instr) (s : String)
    (hop : ins.opcode = "LOAD_CONST")
    (harg : ins.Arg = "\"" ++ s ++ "\"" ∨ ins.Arg = "“" ++ s ++ "”") :
    exec lib vm ins =
      .next { vm with Stack := vm.Stack ++ [VStr (strings.Trim s "\"“”")], PC := vm.PC + 1 } ∧
    ((∀ c, s.data.head? = some c → c ≠ '"' ∧ c ≠ '“' ∧ c ≠ '”') →
      (∀ c, s.data.getLast? = some c → c ≠ '"' ∧ c ≠ '“' ∧ c ≠ '”') →
      strings.Trim s "\"“”" = s) := by
  constructor
  · rcases harg with h | h
    · refine loadConst_quoted lib vm ins s '"' '"' hop ?_ (Or.inl ⟨rfl, rfl⟩)
      rw [h]
      apply String.ext
      simp
    · refine loadConst_quoted lib vm ins s '“' '”' hop ?_ (Or.inr ⟨rfl, rfl⟩)
      rw [h]
      apply String.ext
      simp
  · intro h1 h2
    have hcl : ∀ c : Char, (c ≠ '"' ∧ c ≠ '“' ∧ c ≠ '”') → "\"“”".data.contains c = false := by
      intro c ⟨a1, a2, a3⟩
      have : "\"“”".data = ['"', '“', '”'] := rfl
      rw [this]
      simp [a1, a2, a3]
    exact trim_of_clean s _ (fun c hc => hcl c (h1 c hc)) (fun c hc => hcl c (h2 c hc))

/-- C17 (amended) at concrete arguments. -/
theorem C17_quoted_string_witness :
    exec exampleLib (NewVM []) ⟨0, "LOAD_CONST", "\"" ++ "Hello World" ++ "\""⟩ =
      .next { NewVM [] with Stack := [VStr "Hello World"], PC := 1 } ∧
    exec exampleLib (NewVM []) ⟨0, "LOAD_CONST", "“" ++ "hola" ++ "”"⟩ =
      .next { NewVM [] with Stack := [VStr "hola"], PC := 1 } := by
  have h1 := C17_quoted_string exampleLib (NewVM []) ⟨0, "LOAD_CONST", "\"" ++ "Hello World" ++ "\""⟩
    "Hello World" (by decide) (Or.inl rfl)
  have h2 := C17_quoted_string exampleLib (NewVM []) ⟨0, "LOAD_CONST", "“" ++ "hola" ++ "”"⟩
    "hola" (by decide) (Or.inr rfl)
  have e1 := h1.2 (by decide) (by decide)
  have e2 := h2.2 (by decide) (by decide)
  rw [e1] at h1
  rw [e2] at h2
  exact ⟨h1.1, h2.1⟩

/-! ## C18: the index-to-position map -/

theorem pop_frame (vm : VM) :
    (vm.pop).2.Code = vm.Code ∧ (vm.pop).2.Index2PC = vm.Index2PC ∧ (vm.pop).2.PC = vm.PC := by
  unfold VM.pop
  split <;> exact ⟨rfl, rfl, rfl⟩

theorem pop2_frame (vm : VM) :
    (vm.pop2).2.Code = vm.Code ∧ (vm.pop2).2.Index2PC = vm.Index2PC ∧
      (vm.pop2).2.PC = vm.PC := by
  have h1 := pop_frame vm
  unfold VM.pop2
  rcases hp : vm.pop with ⟨r, vm1⟩
  rw [hp] at h1
  cases r with
  | error e => exact h1
  | ok a =>
    have h2 := pop_frame vm1
    dsimp only at h1 ⊢
    rcases hq : vm1.pop with ⟨r2, vm2⟩
    rw [hq] at h2
    dsimp only at h2
    cases r2 with
    | error e => exact ⟨h2.1.trans h1.1, h2.2.1.trans h1.2.1, h2.2.2.trans h1.2.2⟩
    | ok b => exact ⟨h2.1.trans h1.1, h2.2.1.trans h1.2.1, h2.2.2.trans h1.2.2⟩

theorem popArgs_frame (n : Nat) : ∀ (vm : VM) (acc : List Value),
    (popArgs n vm acc).2.Code = vm.Code ∧ (popArgs n vm acc).2.Index2PC = vm.Index2PC ∧
      (popArgs n vm acc).2.PC = vm.PC := by
  induction n with
  | zero => intro vm acc; exact ⟨rfl, rfl, rfl⟩
  | succ n ih =>
    intro vm acc
    have h1 := pop_frame vm
    unfold popArgs
    rcases hp : vm.pop with ⟨r, vm1⟩
    rw [hp] at h1
    cases r with
    | error e => exact h1
    | ok a =>
      have h2 := ih vm1 (a :: acc)
      dsimp only at h1 h2 ⊢
      exact ⟨h2.1.trans h1.1, h2.2.1.trans h1.2.1, h2.2.2.trans h1.2.2⟩

theorem advances_advance (vm vm1 : VM) (hc : vm1.Code = vm.Code)
    (hm : vm1.Index2PC = vm.Index2PC) (hpc : vm1.PC = vm.PC) : (vm1.advance).advances vm := by
  refine ⟨hc, hm, fun vmx h => ?_, fun _ h => (by cases h)⟩
  simp only [VM.advance, Outcome.next.injEq] at h
  subst h
  simp [hpc]

theorem advances_fail (vm vm1 : VM) (e : Err) (hc : vm1.Code = vm.Code)
    (hm : vm1.Index2PC = vm.Index2PC) : (Outcome.fail e vm1).advances vm :=
  ⟨hc, hm, fun _ h => (by cases h), fun _ h => (by cases h)⟩

theorem advances_crash (vm vm1 : VM) (hc : vm1.Code = vm.Code)
    (hm : vm1.Index2PC = vm.Index2PC) : (Outcome.crash vm1).advances vm :=
  ⟨hc, hm, fun _ h => (by cases h), fun _ h => (by cases h)⟩

theorem execStoreSubscr_advances (vm : VM) : (execStoreSubscr vm).advances vm := by
  have h1 := pop2_frame vm
  unfold execStoreSubscr
  rcases hp : vm.pop2 with ⟨r, vm1⟩
  rw [hp] at h1
  dsimp only at h1
  cases r with
  | error e => exact advances_fail vm _ e h1.1 h1.2.1
  | ok p =>
    obtain ⟨val, arr⟩ := p
    have h2 := pop_frame vm1
    dsimp only
    rcases hq : vm1.pop with ⟨r2, vm2⟩
    rw [hq] at h2
    dsimp only at h2
    have hc : vm2.Code = vm.Code := h2.1.trans h1.1
    have hm : vm2.Index2PC = vm.Index2PC := h2.2.1.trans h1.2.1
    have hpc : vm2.PC = vm.PC := h2.2.2.trans h1.2.2
    cases r2 with
    | error e => exact advances_fail vm _ e hc hm
    | ok idx =>
      dsimp only
      repeat' split
      all_goals
        first
        | exact advances_fail vm _ _ hc hm
        | exact advances_advance vm _ hc hm hpc

theorem execBinarySubscr_advances (vm : VM) : (execBinarySubscr vm).advances vm := by
  have h1 := pop2_frame vm
  unfold execBinarySubscr
  rcases hp : vm.pop2 with ⟨r, vm1⟩
  rw [hp] at h1
  dsimp only at h1
  cases r with
  | error e => exact advances_fail vm _ e h1.1 h1.2.1
  | ok p =>
    obtain ⟨idx, arr⟩ := p
    dsimp only
    repeat' split
    all_goals
      first
      | exact advances_fail vm _ _ h1.1 h1.2.1
      | exact advances_advance vm _ h1.1 h1.2.1 h1.2.2

theorem execArith_advances (vm : VM) (op : String) : (execArith vm op).advances vm := by
  have h1 := pop2_frame vm
  unfold execArith
  rcases hp : vm.pop2 with ⟨r, vm1⟩
  rw [hp] at h1
  dsimp only at h1
  cases r with
  | error e => exact advances_fail vm _ e h1.1 h1.2.1
  | ok p =>
    obtain ⟨oper1, oper2⟩ := p
    dsimp only
    repeat' split
    all_goals
      first
      | exact advances_fail vm _ _ h1.1 h1.2.1
      | exact advances_advance vm _ h1.1 h1.2.1 h1.2.2

theorem execBuildList_advances (vm : VM) (ins : Instr) : (execBuildList vm ins).advances vm := by
  unfold execBuildList
  split
  · exact advances_fail vm _ _ rfl rfl
  · rename_i n _
    split
    · exact advances_crash vm _ rfl rfl
    · have h1 := popArgs_frame n.toNat vm []
      rcases hp : popArgs n.toNat vm [] with ⟨r, vm1⟩
      rw [hp] at h1
      dsimp only at h1
      cases r with
      | error e => exact advances_fail vm _ e h1.1 h1.2.1
      | ok tmp => exact advances_advance vm _ h1.1 h1.2.1 h1.2.2

theorem execCallFunction_advances (lib : Lib) (vm : VM) (ins : Instr) :
    (execCallFunction lib vm ins).advances vm := by
  unfold execCallFunction
  split
  · exact advances_fail vm _ _ rfl rfl
  · rename_i n _
    split
    · exact advances_crash vm _ rfl rfl
    · have h1 := popArgs_frame n.toNat vm []
      rcases hp : popArgs n.toNat vm [] with ⟨r, vm1⟩
      rw [hp] at h1
      dsimp only at h1
      cases r with
      | error e => exact advances_fail vm _ e h1.1 h1.2.1
      | ok args =>
        have h2 := pop_frame vm1
        dsimp only
        rcases hq : vm1.pop with ⟨r2, vm2⟩
        rw [hq] at h2
        dsimp only at h2
        have hc : vm2.Code = vm.Code := h2.1.trans h1.1
        have hm : vm2.Index2PC = vm.Index2PC := h2.2.1.trans h1.2.1
        have hpc : vm2.PC = vm.PC := h2.2.2.trans h1.2.2
        cases r2 with
        | error e => exact advances_fail vm _ e hc hm
        | ok fref =>
          dsimp only
          repeat' split
          all_goals
            first
            | exact advances_fail vm _ _ hc hm
            | exact advances_crash vm _ hc hm
            | exact advances_advance vm _ hc hm hpc

theorem execLoadConst_advances (lib : Lib) (vm : VM) (ins : Instr) :
    (execLoadConst lib vm ins).advances vm := by
  unfold execLoadConst
  dsimp only
  repeat' split
  all_goals
    first
    | exact advances_fail vm _ _ rfl rfl
    | exact advances_advance vm _ rfl rfl rfl

theorem execJumpAbsolute_same (vm : VM) (ins : Instr) :
    (execJumpAbsolute vm ins).vm.Code = vm.Code ∧
      (execJumpAbsolute vm ins).vm.Index2PC = vm.Index2PC ∧
      (∀ vm1, execJumpAbsolute vm ins ≠ .halt vm1) := by
  unfold execJumpAbsolute
  repeat' split
  all_goals exact ⟨rfl, rfl, fun _ h => by cases h⟩

theorem execJumpIf_same (vm : VM) (ins : Instr) :
    (execJumpIf vm ins).vm.Code = vm.Code ∧ (execJumpIf vm ins).vm.Index2PC = vm.Index2PC ∧
      (∀ vm1, execJumpIf vm ins ≠ .halt vm1) := by
  unfold execJumpIf
  split
  · exact ⟨rfl, rfl, fun _ h => by cases h⟩
  · have h1 := pop_frame vm
    rcases hp : vm.pop with ⟨r, vm1⟩
    rw [hp] at h1
    dsimp only at h1
    cases r with
    | error e => exact ⟨h1.1, h1.2.1, fun _ h => by cases h⟩
    | ok val =>
      dsimp only
      repeat' split
      all_goals exact ⟨h1.1, h1.2.1, fun _ h => by cases h⟩

/-- One turn of the loop leaves the program and the index-to-position map as
they are, and an instruction other than a jump that lets the loop go on
advances the program counter by exactly one. -/
theorem exec_frame (lib : Lib) (vm : VM) (ins : Instr) :
    (exec lib vm ins).vm.Code = vm.Code ∧ (exec lib vm ins).vm.Index2PC = vm.Index2PC ∧
    (¬ ins.isJump → ∀ vm1, exec lib vm ins = .next vm1 → vm1.PC = vm.PC + 1) ∧
    (∀ vm1, exec lib vm ins = .halt vm1 → ins.opcode = "END" ∧ vm1 = vm) := by
  have key : ∀ o : Outcome, o.advances vm →
      o.vm.Code = vm.Code ∧ o.vm.Index2PC = vm.Index2PC ∧
      (¬ ins.isJump → ∀ vm1, o = .next vm1 → vm1.PC = vm.PC + 1) ∧
      (∀ vm1, o = .halt vm1 → ins.opcode = "END" ∧ vm1 = vm) :=
    fun o h => ⟨h.1, h.2.1, fun _ => h.2.2.1, fun vm1 hh => absurd hh (h.2.2.2 vm1)⟩
  unfold exec
  dsimp only
  by_cases c1 : ins.opcode = "LOAD_CONST"
  · rw [if_pos c1]
    exact key _ (execLoadConst_advances lib vm ins)
  rw [if_neg c1]
  by_cases c2 : ins.opcode = "LOAD_FAST"
  · rw [if_pos c2]
    cases hv : vm.Env.Vars (strings.TrimSpace ins.Arg) with
    | none => exact key _ (advances_fail vm _ _ rfl rfl)
    | some v => exact key _ (advances_advance vm _ rfl rfl rfl)
  rw [if_neg c2]
  by_cases c3 : ins.opcode = "STORE_FAST"
  · rw [if_pos c3]
    have h1 := pop_frame vm
    rcases hp : vm.pop with ⟨r, vm1⟩
    rw [hp] at h1
    dsimp only at h1
    cases r with
    | error e => exact key _ (advances_fail vm _ e h1.1 h1.2.1)
    | ok v => exact key _ (advances_advance vm _ h1.1 h1.2.1 h1.2.2)
  rw [if_neg c3]
  by_cases c4 : ins.opcode = "LOAD_GLOBAL"
  · rw [if_pos c4]
    exact key _ (advances_advance vm _ rfl rfl rfl)
  rw [if_neg c4]
  by_cases c5 : ins.opcode = "CALL_FUNCTION"
  · rw [if_pos c5]
    exact key _ (execCallFunction_advances lib vm ins)
  rw [if_neg c5]
  by_cases c6 : ins.opcode = "COMPARE_OP"
  · rw [if_pos c6]
    have h1 := pop2_frame vm
    rcases hp : vm.pop2 with ⟨r, vm1⟩
    rw [hp] at h1
    dsimp only at h1
    cases r with
    | error e => exact key _ (advances_fail vm _ e h1.1 h1.2.1)
    | ok p =>
      obtain ⟨oper1, oper2⟩ := p
      dsimp only
      cases hcmp : cmp (strings.TrimSpace ins.Arg) oper2 oper1 with
      | error e => exact key _ (advances_fail vm _ _ h1.1 h1.2.1)
      | ok res => exact key _ (advances_advance vm _ h1.1 h1.2.1 h1.2.2)
  rw [if_neg c6]
  by_cases c7 : ins.opcode = "BINARY_ADD" ∨ ins.opcode = "BINARY_SUBSTRACT" ∨
      ins.opcode = "BINARY_SUBTRACT" ∨ ins.opcode = "BINARY_MULTIPLY" ∨
      ins.opcode = "BINARY_DIVIDE" ∨ ins.opcode = "BINARY_MODULO"
  · rw [if_pos c7]
    exact key _ (execArith_advances vm _)
  rw [if_neg c7]
  by_cases c8 : ins.opcode = "BINARY_AND" ∨ ins.opcode = "BINARY_OR"
  · rw [if_pos c8]
    have h1 := pop2_frame vm
    rcases hp : vm.pop2 with ⟨r, vm1⟩
    rw [hp] at h1
    dsimp only at h1
    cases r with
    | error e => exact key _ (advances_fail vm _ e h1.1 h1.2.1)
    | ok p =>
      obtain ⟨oper1, oper2⟩ := p
      dsimp only
      by_cases hand : strings.ToUpper ins.Op = "BINARY_AND"
      · rw [if_pos hand]
        exact key _ (advances_advance vm _ h1.1 h1.2.1 h1.2.2)
      · rw [if_neg hand]
        exact key _ (advances_advance vm _ h1.1 h1.2.1 h1.2.2)
  rw [if_neg c8]
  by_cases c9 : ins.opcode = "STORE_SUBSCR"
  · rw [if_pos c9]
    exact key _ (execStoreSubscr_advances vm)
  rw [if_neg c9]
  by_cases c10 : ins.opcode = "BINARY_SUBSCR"
  · rw [if_pos c10]
    exact key _ (execBinarySubscr_advances vm)
  rw [if_neg c10]
  by_cases c11 : ins.opcode = "BUILD_LIST"
  · rw [if_pos c11]
    exact key _ (execBuildList_advances vm ins)
  rw [if_neg c11]
  by_cases c12 : ins.opcode = "JUMP_ABSOLUTE"
  · rw [if_pos c12]
    exact ⟨(execJumpAbsolute_same vm ins).1, (execJumpAbsolute_same vm ins).2.1,
      fun hnj => absurd (Or.inl c12) hnj,
      fun vm1 hh => absurd hh ((execJumpAbsolute_same vm ins).2.2 vm1)⟩
  rw [if_neg c12]
  by_cases c13 : ins.opcode = "JUMP_IF_TRUE" ∨ ins.opcode = "JUMP_IF_FALSE"
  · rw [if_pos c13]
    exact ⟨(execJumpIf_same vm ins).1, (execJumpIf_same vm ins).2.1,
      fun hnj => absurd (Or.inr c13) hnj,
      fun vm1 hh => absurd hh ((execJumpIf_same vm ins).2.2 vm1)⟩
  rw [if_neg c13]
  by_cases c14 : ins.opcode = "END"
  · rw [if_pos c14]
    exact ⟨rfl, rfl, fun _ _ h => (by cases h), fun vm1 hh => ⟨c14, (Outcome.halt.inj hh).symm⟩⟩
  rw [if_neg c14]
  exact key _ (advances_fail vm _ _ rfl rfl)

theorem step_frame (lib : Lib) (vm : VM) :
    (step lib vm).vm.Code = vm.Code ∧ (step lib vm).vm.Index2PC = vm.Index2PC := by
  unfold step
  cases h : vm.Code[vm.PC]? with
  | none => exact ⟨rfl, rfl⟩
  | some ins => exact ⟨(exec_frame lib vm ins).1, (exec_frame lib vm ins).2.1⟩

theorem run_frame (lib : Lib) (fuel : Nat) : ∀ (vm : VM) (r : RunResult),
    VM.Run lib fuel vm = some r → r.vm.Code = vm.Code ∧ r.vm.Index2PC = vm.Index2PC := by
  induction fuel with
  | zero => intro vm r h; simp [VM.Run] at h
  | succ fuel ih =>
    intro vm r h
    have hs := step_frame lib vm
    rw [VM.Run] at h
    cases ho : step lib vm with
    | next vm1 =>
      rw [ho] at h hs
      have := ih vm1 r h
      exact ⟨this.1.trans hs.1, this.2.trans hs.2⟩
    | halt vm1 =>
      rw [ho] at h hs
      simp only [Option.some.injEq] at h
      subst h
      exact hs
    | fail e vm1 =>
      rw [ho] at h hs
      simp only [Option.some.injEq] at h
      subst h
      exact hs
    | crash vm1 =>
      rw [ho] at h hs
      simp only [Option.some.injEq] at h
      subst h
      exact hs

/-- C18. The map built by `NewVM` has an entry for exactly the logical indices
that occur in the instruction list; each entry is a position within the list
whose instruction carries that index, and no later instruction carries it (the
last one wins).  No turn of the loop and no call of `Run` changes the
instruction list or the map. -/
theorem C18_index_map (lib : Lib) (code : List Instr) :
    (∀ t, (∃ p, (NewVM code).Index2PC t = some p) ↔ ∃ ins ∈ code, ins.Index = t) ∧
    (∀ t p, (NewVM code).Index2PC t = some p →
      p < code.length ∧ (∃ ins, code[p]? = some ins ∧ ins.Index = t) ∧
      (∀ j ins2, p < j → code[j]? = some ins2 → ins2.Index ≠ t)) ∧
    (∀ (vm : VM) (ins : Instr),
      (exec lib vm ins).vm.Code = vm.Code ∧ (exec lib vm ins).vm.Index2PC = vm.Index2PC) ∧
    (∀ (vm : VM) (fuel : Nat) (r : RunResult), VM.Run lib fuel vm = some r →
      r.vm.Code = vm.Code ∧ r.vm.Index2PC = vm.Index2PC) := by
  have hmap : ∀ t, (NewVM code).Index2PC t = indexLoop code 0 (fun _ => none) t :=
    fun _ => rfl
  refine ⟨?_, ?_, fun vm ins => ⟨(exec_frame lib vm ins).1, (exec_frame lib vm ins).2.1⟩,
    fun vm fuel r h => run_frame lib fuel vm r h⟩
  · intro t
    rw [hmap]
    rcases indexLoop_spec code 0 (fun _ => none) t with ⟨h1, h2⟩ | ⟨k, ins, hk, hi, hl, _⟩
    · constructor
      · rintro ⟨p, hp⟩
        rw [h1] at hp
        cases hp
      · rintro ⟨ins, hin, hi⟩
        exact absurd hi (h2 ins hin)
    · constructor
      · intro _
        exact ⟨ins, List.mem_iff_getElem?.mpr ⟨k, hk⟩, hi⟩
      · intro _
        exact ⟨0 + k, hl⟩
  · intro t p hp
    rw [hmap] at hp
    rcases indexLoop_spec code 0 (fun _ => none) t with ⟨h1, _⟩ | ⟨k, ins, hk, hi, hl, hlast⟩
    · rw [h1] at hp
      cases hp
    · rw [hl] at hp
      have hpk : p = k := by
        simp only [Option.some.injEq] at hp
        omega
      subst hpk
      refine ⟨?_, ⟨ins, hk, hi⟩, hlast⟩
      by_contra hge
      rw [List.getElem?_eq_none (not_lt.mp hge)] at hk
      cases hk

/-- C18 at a concrete program in which the index 5 occurs twice: it is mapped to
the later position, and the absent index 6 has no entry. -/
theorem C18_index_map_witness :
    (1 < [(⟨5, "LOAD_CONST", "1"⟩ : Instr), ⟨5, "END", ""⟩, ⟨7, "END", ""⟩].length ∧
      (∃ ins, [(⟨5, "LOAD_CONST", "1"⟩ : Instr), ⟨5, "END", ""⟩, ⟨7, "END", ""⟩][1]? = some ins ∧
        ins.Index = 5) ∧
      (∀ j ins2, 1 < j →
        [(⟨5, "LOAD_CONST", "1"⟩ : Instr), ⟨5, "END", ""⟩, ⟨7, "END", ""⟩][j]? = some ins2 →
        ins2.Index ≠ 5)) ∧
    ((∃ p, (NewVM [⟨5, "LOAD_CONST", "1"⟩, ⟨5, "END", ""⟩, ⟨7, "END", ""⟩]).Index2PC 6 = some p) ↔
      ∃ ins ∈ [(⟨5, "LOAD_CONST", "1"⟩ : Instr), ⟨5, "END", ""⟩, ⟨7, "END", ""⟩], ins.Index = 6) :=
  ⟨(C18_index_map exampleLib [⟨5, "LOAD_CONST", "1"⟩, ⟨5, "END", ""⟩, ⟨7, "END", ""⟩]).2.1 5 1 rfl,
   (C18_index_map exampleLib [⟨5, "LOAD_CONST", "1"⟩, ⟨5, "END", ""⟩, ⟨7, "END", ""⟩]).1 6⟩

/-! ## C19: negative counts -/

/-- C19 at the failing inputs: a `BUILD_LIST` or `CALL_FUNCTION` whose argument
reads as `-1`, which the loader accepts, makes `make` panic: `Run` does not
return an error, the process is aborted. -/
theorem C19_negative_count_crashes :
    VM.Run exampleLib 1 (NewVM [⟨0, "BUILD_LIST", "-1"⟩]) =
      some (.crashed (NewVM [⟨0, "BUILD_LIST", "-1"⟩])) ∧
    VM.Run exampleLib 1 (NewVM [⟨0, "CALL_FUNCTION", "-1"⟩]) =
      some (.crashed (NewVM [⟨0, "CALL_FUNCTION", "-1"⟩])) ∧
    parseFile ["0", "BUILD_LIST", "-1"] = .ok [⟨0, "BUILD_LIST", "-1"⟩] :=
  ⟨rfl, rfl, by decide⟩

/-! ## C20: jump-free programs -/

/-- How a run of a jump-free program ends after `n` turns that let the loop go
on, from the machine `vmn` reached: the program counter has reached the end of
the program, or the instruction at the program counter is `END`, fails, or
aborts the process. -/
theorem jump_free_run (lib : Lib) (d : Nat) : ∀ vm : VM,
    vm.Code.length - vm.PC = d → vm.PC ≤ vm.Code.length → (∀ ins ∈ vm.Code, ¬ ins.isJump) →
    ∃ n vmn, runSteps lib n vm = some vmn ∧ vmn.PC = vm.PC + n ∧
      (∀ k vmk, k ≤ n → runSteps lib k vm = some vmk → vmk.PC = vm.PC + k) ∧
      ((vmn.PC = vm.Code.length ∧ VM.Run lib (n + 1) vm = some (.ok vmn)) ∨
       (∃ ins, vm.Code[vmn.PC]? = some ins ∧ n + 1 ≤ d ∧
          ((ins.opcode = "END" ∧ VM.Run lib (n + 1) vm = some (.ok vmn)) ∨
           (∃ e vm1, exec lib vmn ins = .fail e vm1 ∧
              VM.Run lib (n + 1) vm = some (.error e vm1)) ∨
           (∃ vm1, exec lib vmn ins = .crash vm1 ∧
              VM.Run lib (n + 1) vm = some (.crashed vm1))))) := by
  induction d with
  | zero =>
    intro vm hd hpc _
    have hend : vm.PC = vm.Code.length := by omega
    have hnone : vm.Code[vm.PC]? = none := List.getElem?_eq_none (by omega)
    refine ⟨0, vm, rfl, rfl, ?_, Or.inl ⟨hend, ?_⟩⟩
    · intro k vmk hk h
      have hk0 : k = 0 := by omega
      subst hk0
      simp only [runSteps, Option.some.injEq] at h
      subst h
      rfl
    · simp [VM.Run, step, hnone]
  | succ d ih =>
    intro vm hd hpc hnj
    have hlt : vm.PC < vm.Code.length := by omega
    obtain ⟨ins, hins⟩ : ∃ ins, vm.Code[vm.PC]? = some ins :=
      ⟨vm.Code[vm.PC], List.getElem?_eq_getElem hlt⟩
    have hmem : ins ∈ vm.Code := List.mem_iff_getElem?.mpr ⟨_, hins⟩
    have hstep : step lib vm = exec lib vm ins := step_fetch lib vm ins hins
    obtain ⟨hcode, _, hpcnext, hhalt⟩ := exec_frame lib vm ins
    have hk0 : ∀ k vmk, k ≤ 0 → runSteps lib k vm = some vmk → vmk.PC = vm.PC + k := by
      intro k vmk hk h
      have hk0 : k = 0 := by omega
      subst hk0
      simp only [runSteps, Option.some.injEq] at h
      subst h
      rfl
    cases ho : exec lib vm ins with
    | next vm1 =>
      rw [ho] at hcode
      have hc1 : vm1.Code = vm.Code := hcode
      have hp1 : vm1.PC = vm.PC + 1 := hpcnext (hnj ins hmem) vm1 ho
      obtain ⟨n, vmn, hrun, hpcn, hall, hend⟩ :=
        ih vm1 (by rw [hc1, hp1]; omega) (by rw [hc1, hp1]; omega) (by rw [hc1]; exact hnj)
      have hrs : ∀ k vmk, runSteps lib (k + 1) vm = some vmk ↔ runSteps lib k vm1 = some vmk := by
        intro k vmk
        rw [runSteps, hstep, ho]
      have hrn : ∀ k, VM.Run lib (k + 1) vm = VM.Run lib k vm1 := by
        intro k
        rw [VM.Run, hstep, ho]
      refine ⟨n + 1, vmn, (hrs n vmn).mpr hrun, by rw [hpcn, hp1]; omega, ?_, ?_⟩
      · intro k vmk hk h
        cases k with
        | zero => exact hk0 0 vmk (le_refl _) h
        | succ k =>
          have := hall k vmk (by omega) ((hrs k vmk).mp h)
          rw [this, hp1]
          omega
      · rw [hc1] at hend
        rcases hend with ⟨h1, h2⟩ | ⟨ins2, hi2, hle, h3⟩
        · exact Or.inl ⟨h1, by rw [hrn]; exact h2⟩
        · refine Or.inr ⟨ins2, hi2, by omega, ?_⟩
          rcases h3 with ⟨h4, h5⟩ | ⟨e, vmx, h4, h5⟩ | ⟨vmx, h4, h5⟩
          · exact Or.inl ⟨h4, by rw [hrn]; exact h5⟩
          · exact Or.inr (Or.inl ⟨e, vmx, h4, by rw [hrn]; exact h5⟩)
          · exact Or.inr (Or.inr ⟨vmx, h4, by rw [hrn]; exact h5⟩)
    | halt vm1 =>
      obtain ⟨hop, hvm⟩ := hhalt vm1 ho
      subst hvm
      refine ⟨0, vm1, rfl, rfl, hk0, Or.inr ⟨ins, hins, by omega, Or.inl ⟨hop, ?_⟩⟩⟩
      simp [VM.Run, hstep, ho]
    | fail e vm1 =>
      refine ⟨0, vm, rfl, rfl, hk0, Or.inr ⟨ins, hins, by omega, Or.inr (Or.inl ⟨e, vm1, ho, ?_⟩)⟩⟩
      simp [VM.Run, hstep, ho]
    | crash vm1 =>
      refine ⟨0, vm, rfl, rfl, hk0, Or.inr ⟨ins, hins, by omega, Or.inr (Or.inr ⟨vm1, ho, ?_⟩)⟩⟩
      simp [VM.Run, hstep, ho]

/-- Termination of jump-free programs.  For a program without jump
instructions, started by `NewVM`: there is a number `n ≤ len(Code)` of turns
that each advance the program counter by one (after `k` of them it is `k`),
after which `Run` ends at its next turn: with success because the counter has
reached `len(Code)`, or at the instruction in position `n < len(Code)`, which is
`END` (success), fails (its error is returned), or aborts the process.  So `Run`
ends within `len(Code) + 1` turns, having executed at most `len(Code)`
instructions in physical order. -/
theorem jump_free_terminates (lib : Lib) (code : List Instr)
    (hnj : ∀ ins ∈ code, ¬ ins.isJump) :
    ∃ n vmn, n ≤ code.length ∧ runSteps lib n (NewVM code) = some vmn ∧ vmn.PC = n ∧
      (∀ k vmk, k ≤ n → runSteps lib k (NewVM code) = some vmk → vmk.PC = k) ∧
      ((n = code.length ∧ VM.Run lib (n + 1) (NewVM code) = some (.ok vmn)) ∨
       (∃ ins, code[n]? = some ins ∧ n + 1 ≤ code.length ∧
          ((ins.opcode = "END" ∧ VM.Run lib (n + 1) (NewVM code) = some (.ok vmn)) ∨
           (∃ e vm1, exec lib vmn ins = .fail e vm1 ∧
              VM.Run lib (n + 1) (NewVM code) = some (.error e vm1)) ∨
           (∃ vm1, exec lib vmn ins = .crash vm1 ∧
              VM.Run lib (n + 1) (NewVM code) = some (.crashed vm1))))) := by
  obtain ⟨n, vmn, hrun, hpc, hall, hend⟩ :=
    jump_free_run lib code.length (NewVM code) rfl (Nat.zero_le _) hnj
  have hpc0 : vmn.PC = n := by rw [hpc]; exact Nat.zero_add n
  have hn : n ≤ code.length := by
    rcases hend with ⟨h1, _⟩ | ⟨_, _, hle, _⟩
    · rw [hpc0] at h1
      exact le_of_eq h1
    · omega
  refine ⟨n, vmn, hn, hrun, hpc0, ?_, ?_⟩
  · intro k vmk hk h
    rw [hall k vmk hk h]
    exact Nat.zero_add k
  · rcases hend with ⟨h1, h2⟩ | ⟨ins, hi, hle, h3⟩
    · exact Or.inl ⟨by rw [← hpc0]; exact h1, h2⟩
    · rw [hpc0] at hi
      exact Or.inr ⟨ins, hi, hle, h3⟩

/-- C20 at the failing input: a program without jump instructions whose
second instruction is `BUILD_LIST -1`.  After one turn the next one aborts the
process: `Run` returns neither success nor an error. -/
theorem C20_jump_free_program_panics :
    (∀ ins ∈ [(⟨0, "LOAD_CONST", "1"⟩ : Instr), ⟨1, "BUILD_LIST", "-1"⟩, ⟨2, "END", ""⟩],
      ¬ ins.isJump) ∧
    parseFile ["0", "LOAD_CONST", "1", "1", "BUILD_LIST", "-1", "2", "END"] =
      .ok [⟨0, "LOAD_CONST", "1"⟩, ⟨1, "BUILD_LIST", "-1"⟩, ⟨2, "END", ""⟩] ∧
    VM.Run exampleLib 2
        (NewVM [⟨0, "LOAD_CONST", "1"⟩, ⟨1, "BUILD_LIST", "-1"⟩, ⟨2, "END", ""⟩]) =
      some (.crashed
        { NewVM [⟨0, "LOAD_CONST", "1"⟩, ⟨1, "BUILD_LIST", "-1"⟩, ⟨2, "END", ""⟩] with
            Stack := [VInt 1], PC := 1 }) :=
  ⟨by decide, by decide, rfl⟩

end MiniInterprete
